import Mathlib

/-!
Verification of the OSM PBF parser (src/parser.ts and src/proto/fileformat.ts).

Shallow embedding conventions:
* JS numbers holding wire integers (ids, deltas, counts) are modelled as `Int`,
  string-table indices as `Nat` (or `Int` where the source mixes running sums
  into indices), byte values as `Nat`.
* JS floating point arithmetic on coordinates is modelled over `ℚ`; only the
  algebraic formula `offset + sum / granularity` is in scope.
* A JS string-table lookup `strings[i]` that is out of range yields `undefined`;
  everywhere the parser uses such lookups the value either feeds a truthiness
  test (where `undefined` and `""` coincide) or becomes a tag key on malformed
  input, so the lookup is modelled as `getD i ""`.
* Fallible code returns `Except String`; `throw new Error(msg)` becomes
  `.error msg`.
-/

namespace OsmPbf


/-- Decidable equality for `Except` results (used to evaluate the decoders on
concrete inputs in witnesses). -/
instance {ε α : Type} [DecidableEq ε] [DecidableEq α] : DecidableEq (Except ε α) :=
  fun a b =>
    match a, b with
    | .ok x, .ok y =>
      if h : x = y then isTrue (by rw [h])
      else isFalse (by intro hc; injection hc; exact h ‹_›)
    | .error x, .error y =>
      if h : x = y then isTrue (by rw [h])
      else isFalse (by intro hc; injection hc; exact h ‹_›)
    | .ok _, .error _ => isFalse (by intro hc; cases hc)
    | .error _, .ok _ => isFalse (by intro hc; cases hc)

/-- String-table lookup `strings[i]` for a `Nat` index, `undefined`/missing
modelled as `""` (both are falsy where the parser tests the result). -/
def strAt (strings : List String) (i : Nat) : String :=
  strings.getD i ""

/-- String-table lookup for an `Int` index (dense running sums can in principle
go negative; JS would yield `undefined`, modelled as `""`). -/
def strAtI (strings : List String) (i : Int) : String :=
  if i < 0 then "" else strings.getD i.toNat ""

/-- A resolved per-kind tag option as stored by `with_tags` in src/parser.ts:
either a boolean or a JS `Set` of allowed keys (modelled as the list the set
was built from; membership is string equality). -/
inductive KindSetting where
  | flag (b : Bool)
  | keyset (s : List String)
deriving DecidableEq, Repr

/-- The record returned by `with_tags`: one entry per entity kind.  `none`
models a missing (`undefined`) property, which arises when `with_tags` is
given a non-boolean, non-object argument and returns the empty object. -/
structure ResolvedTags where
  node : Option KindSetting
  way : Option KindSetting
  relation : Option KindSetting
deriving DecidableEq, Repr

/-- JS truthiness of `data.withTags.<kind>`: `undefined` and `false` are falsy,
`true` and any `Set` object are truthy. -/
def settingTruthy : Option KindSetting → Bool
  | none => false
  | some (.flag b) => b
  | some (.keyset _) => true

/-- The per-pair filter test in parse_node/parse_way/parse_rel:
`filter = setting === true ? false : setting;  !filter || filter.has(key)`. -/
def allowKey : Option KindSetting → String → Bool
  | some (.keyset s), k => s.contains k
  | _, _ => true

/-- One per-kind entry of a raw `withTags` option object, as `with_tags` reads
it: `opt[k]` is a boolean, an array, absent (`undefined`/`null`, which
`?? true` turns into `true`), or some other value. -/
inductive RawKind where
  | flag (b : Bool)
  | arr (l : List String)
  | missing
  | other
deriving DecidableEq, Repr

/-- A raw `withTags` option: a boolean, an object with the three kind entries,
`null`, or any other primitive value (number, string, ...). -/
inductive RawOpt where
  | flag (b : Bool)
  | obj (node way relation : RawKind)
  | nul
  | otherPrim
deriving DecidableEq, Repr

/-- Resolution of one kind entry inside the object branch of `with_tags`:
`none` models the `result = null; break` path for a value that is neither a
boolean nor an array. -/
def resolveKind : RawKind → Option KindSetting
  | .missing => some (.flag true)
  | .flag b => some (.flag b)
  | .arr l => some (if l.length > 0 then .keyset l else .flag false)
  | .other => none

/-- `with_tags` from src/parser.ts.  Note the faithful quirk: a non-boolean,
non-object argument (`.nul`, `.otherPrim`) skips both branches, leaves
`result = {}` (truthy) and returns it, so NO error is thrown for such shapes;
the error is raised only for an object carrying a bad per-kind value. -/
def with_tags : RawOpt → Except String ResolvedTags
  | .flag b => .ok ⟨some (.flag b), some (.flag b), some (.flag b)⟩
  | .obj n w r =>
    match resolveKind n with
    | none => .error "wrong withTags option."
    | some n1 =>
      match resolveKind w with
      | none => .error "wrong withTags option."
      | some w1 =>
        match resolveKind r with
        | none => .error "wrong withTags option."
        | some r1 => .ok ⟨some n1, some w1, some r1⟩
  | .nul => .ok ⟨none, none, none⟩
  | .otherPrim => .ok ⟨none, none, none⟩

/-- JS object insertion `tags[key] = val` on a string-keyed object used as a
map: replaces the value of an existing key in place, otherwise appends. -/
def upsert (m : List (String × String)) (k v : String) : List (String × String) :=
  if m.any (fun p => p.1 = k) then
    m.map (fun p => if p.1 = k then (k, v) else p)
  else m ++ [(k, v)]

/-- The tag-assembly loop shared verbatim by parse_node, parse_way and
parse_rel: iterate the parallel keys/vals arrays, filter, insert.  The
mismatched-length fallback is unreachable because `assertArrays` runs first. -/
def tagsLoop (setting : Option KindSetting) (strings : List String) :
    List Nat → List Nat → List (String × String) → List (String × String)
  | [], _, acc => acc
  | _ :: _, [], acc => acc
  | k :: ks, v :: vs, acc =>
    let key := strAt strings k
    let val := strAt strings v
    tagsLoop setting strings ks vs (if allowKey setting key then upsert acc key val else acc)

/-- Tag assembly plus the `if (!isEmpty(tags))` omission step. -/
def assemble_tags (setting : Option KindSetting) (strings : List String)
    (keys vals : List Nat) : Option (List (String × String)) :=
  let tags := tagsLoop setting strings keys vals []
  if tags.isEmpty then none else some tags

/-- The tags field an entity ends up with: the `if (data.withTags.<kind>)`
gate around assembly. -/
def tagsField (setting : Option KindSetting) (strings : List String)
    (keys vals : List Nat) : Option (List (String × String)) :=
  if settingTruthy setting then assemble_tags setting strings keys vals else none

/-- The wire info record as consumed by `fill_info` (fields the parser reads;
`visible` is `none` when the wire value is absent/undefined). -/
structure InfoWire where
  version : Int
  timestamp : Int
  changeset : Int
  uid : Int
  user_sid : Int
  visible : Option Bool
deriving DecidableEq, Repr

/-- The info record `fill_info` returns; a `none` field models an absent JS
property. -/
structure InfoOut where
  version : Option Int := none
  timestamp : Option Int := none
  changeset : Option Int := none
  uid : Option Int := none
  user : Option String := none
  visible : Option Bool := none
deriving DecidableEq, Repr

/-- `isEmpty` from src/parser.ts applied to an info record: no own property. -/
def infoIsEmpty (i : InfoOut) : Bool :=
  i.version.isNone && i.timestamp.isNone && i.changeset.isNone &&
  i.uid.isNone && i.user.isNone && i.visible.isNone

/-- The decoded-block context threaded through the entity decoders, with the
block-level normalisations (string decode, granularity defaulting, offset
scaling) already applied by `parse`. -/
structure BlockData where
  strings : List String
  granularity : ℚ
  lat_offset : ℚ
  lon_offset : ℚ
  date_granularity : Int
  withTags : ResolvedTags
  withInfo : Bool
deriving DecidableEq, Repr

/-- `fill_info` from src/parser.ts. -/
def fill_info (data : BlockData) (info : InfoWire) : InfoOut :=
  { version := if info.version ≠ 0 then some info.version else none
    timestamp := if info.timestamp ≠ 0 then some (info.timestamp * data.date_granularity) else none
    changeset := if info.changeset ≠ 0 then some info.changeset else none
    uid := if info.uid ≠ 0 then some info.uid else none
    user :=
      if info.user_sid ≠ 0 then
        let s := strAtI data.strings info.user_sid
        if s ≠ "" then some s else none
      else none
    visible := if info.visible = some false then some false else none }

/-- The info field an entity ends up with: the
`if (data.withInfo && x.info) { ... if (!isEmpty(info)) x.info = info }`
pattern shared by parse_node, parse_way, parse_rel. -/
def infoField (data : BlockData) (iw : Option InfoWire) : Option InfoOut :=
  match data.withInfo, iw with
  | true, some i =>
    let info := fill_info data i
    if infoIsEmpty info then none else some info
  | _, _ => none

/-- Wire form of a plain node. -/
structure NodeWire where
  id : Int
  lat : Int
  lon : Int
  keys : List Nat
  vals : List Nat
  info : Option InfoWire
deriving DecidableEq, Repr

/-- A decoded node (`type: 'node'` is implicit in the Lean type). -/
structure NodeOut where
  id : Int
  lat : ℚ
  lon : ℚ
  tags : Option (List (String × String))
  info : Option InfoOut
deriving DecidableEq, Repr

/-- The tag step of each entity decoder: `assertArrays(keys, vals)` (a
FormatError on mismatch) followed by assembly — both happen only inside the
`if (data.withTags.<kind>)` branch. -/
def tagsStep (setting : Option KindSetting) (strings : List String)
    (keys vals : List Nat) : Except String (Option (List (String × String))) :=
  if settingTruthy setting then
    if keys.length = vals.length then
      .ok (assemble_tags setting strings keys vals)
    else .error "input format error"
  else .ok none

/-- `parse_node` from src/parser.ts.  `assertArrays(n.keys, n.vals)` runs only
inside the `if (data.withTags.node)` branch. -/
def parse_node (n : NodeWire) (data : BlockData) : Except String NodeOut :=
  match tagsStep data.withTags.node data.strings n.keys n.vals with
  | .error e => .error e
  | .ok tags =>
    .ok { id := n.id
          lat := data.lat_offset + (n.lat : ℚ) / data.granularity
          lon := data.lon_offset + (n.lon : ℚ) / data.granularity
          tags := tags
          info := infoField data n.info }

/-- Running (delta-decoded) sums: `refs[i] = ref += w.refs[i]` seeded at
`start`. -/
def runningSums (start : Int) : List Int → List Int
  | [] => []
  | d :: ds => (start + d) :: runningSums (start + d) ds

/-- Wire form of a way. -/
structure WayWire where
  id : Int
  refs : List Int
  keys : List Nat
  vals : List Nat
  info : Option InfoWire
deriving DecidableEq, Repr

/-- A decoded way. -/
structure WayOut where
  id : Int
  refs : List Int
  tags : Option (List (String × String))
  info : Option InfoOut
deriving DecidableEq, Repr

/-- `parse_way` from src/parser.ts. -/
def parse_way (w : WayWire) (data : BlockData) : Except String WayOut :=
  match tagsStep data.withTags.way data.strings w.keys w.vals with
  | .error e => .error e
  | .ok tags =>
    .ok { id := w.id
          refs := runningSums 0 w.refs
          tags := tags
          info := infoField data w.info }

/-- `memberTypes` from src/parser.ts. -/
def memberTypes : List String := ["node", "way", "relation"]

/-- A decoded relation member; `type` is `none` when `memberTypes[t]` is an
out-of-range (undefined) lookup. -/
structure Member where
  type : Option String
  ref : Int
  role : String
deriving DecidableEq, Repr

/-- Wire form of a relation. -/
structure RelWire where
  id : Int
  memids : List Int
  types : List Nat
  roles_sid : List Nat
  keys : List Nat
  vals : List Nat
  info : Option InfoWire
deriving DecidableEq, Repr

/-- A decoded relation. -/
structure RelOut where
  id : Int
  members : List Member
  tags : Option (List (String × String))
  info : Option InfoOut
deriving DecidableEq, Repr

/-- The member-building loop of `parse_rel`: `ref` is a running sum, `type` an
unchecked index into `memberTypes`, `role` a string-table lookup.  The
mismatched-length fallback is unreachable (`assertArrays` runs first). -/
def mkMembers (strings : List String) (ref : Int) :
    List Int → List Nat → List Nat → List Member
  | [], _, _ => []
  | m :: ms, t :: ts, r :: rs =>
    { type := memberTypes.get? t, ref := ref + m, role := strAt strings r }
      :: mkMembers strings (ref + m) ms ts rs
  | _, _, _ => []

/-- `parse_rel` from src/parser.ts.  `assertArrays(r.memids, r.types,
r.roles_sid)` is unconditional; the keys/vals check again sits inside the
tag-policy gate. -/
def parse_rel (r : RelWire) (data : BlockData) : Except String RelOut :=
  if r.memids.length = r.types.length ∧ r.memids.length = r.roles_sid.length then
    match tagsStep data.withTags.relation data.strings r.keys r.vals with
    | .error e => .error e
    | .ok tags =>
      .ok { id := r.id
            members := mkMembers data.strings 0 r.memids r.types r.roles_sid
            tags := tags
            info := infoField data r.info }
  else .error "input format error"

/-- Wire form of the optional dense-info substructure. -/
structure DenseInfoWire where
  timestamp : List Int
  changeset : List Int
  uid : List Int
  user_sid : List Int
  version : List Int
  visible : List Bool
deriving DecidableEq, Repr

/-- Wire form of a dense-node record. -/
structure DenseWire where
  id : List Int
  lat : List Int
  lon : List Int
  keys_vals : List Int
  denseinfo : Option DenseInfoWire
deriving DecidableEq, Repr

/-- The per-node `while (dense.keys_vals[j] !== 0)` loop of `parse_dense`,
expressed on the suffix of `keys_vals` from the shared cursor `j`.  Returns
the assembled tags and the remaining suffix after the `j++` past the 0
sentinel.  `none` models the cursor running past the end of the array: in JS
`keys_vals[j]` is then `undefined`, `undefined !== 0` holds and the loop never
terminates, so no value is produced. -/
def tagsSeg (setting : Option KindSetting) (strings : List String) :
    List Int → List (String × String) → Option (List (String × String) × List Int)
  | [], _ => none
  | k :: rest, acc =>
    if k = 0 then some (acc, rest)
    else
      match rest with
      | [] => none
      | v :: rest2 =>
        let key := strAtI strings k
        let val := strAtI strings v
        tagsSeg setting strings rest2 (if allowKey setting key then upsert acc key val else acc)
termination_by structural l => l

/-- The running sums threaded across iterations of the dense loop
(`id`, `lat`, `lon` always; the four delta-decoded info fields only when the
info branch runs). -/
structure DenseAcc where
  id : Int
  lat : Int
  lon : Int
  timestamp : Int
  changeset : Int
  uid : Int
  user_sid : Int
deriving DecidableEq, Repr

/-- The per-iteration tag work of the dense loop: the
`if (data.withTags.node && dense.keys_vals.length > 0)` gate, the sentinel
loop from the shared cursor, and the empty-map omission. -/
def denseTagsStep (data : BlockData) (dense : DenseWire) (kv : List Int) :
    Except String (Option (List (String × String)) × List Int) :=
  if settingTruthy data.withTags.node ∧ dense.keys_vals.length > 0 then
    match tagsSeg data.withTags.node data.strings kv [] with
    | none => .error "keys_vals cursor out of range"
    | some (t, rest) => .ok ((if t.isEmpty then none else some t), rest)
  else .ok (none, kv)

/-- The per-iteration info work of the dense loop: only when
`data.withInfo && dinfo`, run `assertArrays` (id against the five arrays —
NOT `visible`), advance the four delta-decoded running sums, and build the
per-node info record.  Returns the info field and the new running sums. -/
def denseInfoStep (data : BlockData) (dense : DenseWire) (i : Nat) (acc : DenseAcc) :
    Except String (Option InfoOut × Int × Int × Int × Int) :=
  match data.withInfo, dense.denseinfo with
  | true, some dinfo =>
    if dense.id.length = dinfo.timestamp.length ∧
       dense.id.length = dinfo.changeset.length ∧
       dense.id.length = dinfo.uid.length ∧
       dense.id.length = dinfo.user_sid.length ∧
       dense.id.length = dinfo.version.length then
      let ts := acc.timestamp + dinfo.timestamp.getD i 0
      let cs := acc.changeset + dinfo.changeset.getD i 0
      let u := acc.uid + dinfo.uid.getD i 0
      let us := acc.user_sid + dinfo.user_sid.getD i 0
      let info := fill_info data
        { version := dinfo.version.getD i 0, timestamp := ts, changeset := cs,
          uid := u, user_sid := us, visible := dinfo.visible.get? i }
      .ok ((if infoIsEmpty info then none else some info), ts, cs, u, us)
    else .error "input format error"
  | _, _ => .ok (none, acc.timestamp, acc.changeset, acc.uid, acc.user_sid)

/-- The `for (let i = 0; ...)` loop body of `parse_dense`, one recursive call
per node.  `i` is the absolute index (used for the dense-info arrays), `kv`
the remaining `keys_vals` suffix at the shared cursor. -/
def denseLoop (data : BlockData) (dense : DenseWire) :
    List Int → List Int → List Int → Nat → DenseAcc → List Int →
    Except String (List NodeOut)
  | [], _, _, _, _, _ => .ok []
  | d :: ids, dla :: lats, dlo :: lons, i, acc, kv =>
    match denseTagsStep data dense kv with
    | .error e => .error e
    | .ok (tags, kv1) =>
      match denseInfoStep data dense i acc with
      | .error e => .error e
      | .ok (info, ts, cs, u, us) =>
        match denseLoop data dense ids lats lons (i + 1)
            ⟨acc.id + d, acc.lat + dla, acc.lon + dlo, ts, cs, u, us⟩ kv1 with
        | .error e => .error e
        | .ok rest =>
          .ok ({ id := acc.id + d
                 lat := data.lat_offset + ((acc.lat + dla : Int) : ℚ) / data.granularity
                 lon := data.lon_offset + ((acc.lon + dlo : Int) : ℚ) / data.granularity
                 tags := tags
                 info := info } :: rest)
  | _ :: _, _, _, _, _, _ => .ok []

/-- `parse_dense` from src/parser.ts: the leading
`assertArrays(dense.id, dense.lat, dense.lon)` then the loop. -/
def parse_dense (dense : DenseWire) (data : BlockData) : Except String (List NodeOut) :=
  if dense.id.length = dense.lat.length ∧ dense.id.length = dense.lon.length then
    denseLoop data dense dense.id dense.lat dense.lon 0 ⟨0, 0, 0, 0, 0, 0, 0⟩ dense.keys_vals
  else .error "input format error"

/-! ### The framing state machine (`OSMTransform._transform` / `_flush`)

The machine is embedded generically over the three blob-level decode
operations, which in the source are compositions of external collaborators
(the pbf field reader, `inflateSync`) with this repository's dispatch code:
* `readBlobHeader` stands for `BlobHeader.read` on the current frame slice,
  yielding `(type, datasize)`;
* `decodeHeaderBlob` stands for `BlobData.read` + payload selection +
  `HeaderBlock.read` in status 2;
* `decodeDataBlob` stands for `BlobData.read` + payload selection + `parse`
  (or the `writeRaw` push) in status 3.
Each operates on exactly the `needed`-byte slice the state machine hands it,
which is the behaviour of the source for every well-formed frame (the pbf
reader is bounded by `pbf.length`, which `_transform` maintains as
`offset + needed`). -/

/-- Byte sequences (each entry a byte value). -/
abbrev Bytes := List Nat

/-- The `needed`-byte window at `offset`. -/
def slice (B : Bytes) (o n : Nat) : Bytes :=
  (B.drop o).take n

/-- `buffer.readUInt32BE(offset)`; `none` models the JS `RangeError` when
fewer than 4 bytes remain. -/
def readU32BE (B : Bytes) (o : Nat) : Option Nat :=
  match slice B o 4 with
  | [b0, b1, b2, b3] => some (((b0 * 256 + b1) * 256 + b2) * 256 + b3)
  | _ => none

/-- The blob-level decode operations the machine dispatches to; `ω` is the
type of pushed outputs. -/
structure MachineEnv (ω : Type) where
  readBlobHeader : Bytes → Except String (String × Nat)
  decodeHeaderBlob : Bytes → Except String ω
  decodeDataBlob : Bytes → Except String ω

/-- Result of one iteration of the `while (true)` loop. -/
inductive StepRes (ω : Type) where
  | next (o s nd : Nat)
  | cont (outs : List ω) (o s nd : Nat)
  | fail (e : String)
deriving DecidableEq

/-- One iteration of the `while (true)` loop of `_transform`: the
insufficient-bytes check (`this.needed` is falsy exactly when 0), then the
dispatch on `this.status`.  Status values: 0 = header length, 1 = BlobHeader,
2 = OSMHeader blob, 3 = OSMData blob. -/
def step (env : MachineEnv ω) (B : Bytes) (o s nd : Nat) : StepRes ω :=
  if nd ≠ 0 ∧ B.length - o < nd then .next o s nd
  else if s = 0 then
    match readU32BE B o with
    | none => .fail "RangeError"
    | some l => .cont [] (o + nd) 1 l
  else if s = 1 then
    match env.readBlobHeader (slice B o nd) with
    | .error e => .fail e
    | .ok (ty, ds) =>
      if ty = "OSMHeader" ∨ ty = "OSMData" then
        .cont [] (o + nd) (if ty = "OSMHeader" then 2 else 3) ds
      else .fail "input sequence error"
  else if s = 2 then
    match env.decodeHeaderBlob (slice B o nd) with
    | .error e => .fail e
    | .ok w => .cont [w] (o + nd) 0 4
  else if s = 3 then
    match env.decodeDataBlob (slice B o nd) with
    | .error e => .fail e
    | .ok w => .cont [w] (o + nd) 0 4
  else .fail "unreachable status"

/-- Result of running the loop to completion: `next` models `return next()`
(wait for the following chunk), `fail` a thrown error, `out` exhausted fuel
(never reached from a reachable state, see `runLoop_not_out`). -/
inductive LoopRes (ω : Type) where
  | next (outs : List ω) (o s nd : Nat)
  | fail (outs : List ω) (e : String)
  | out (outs : List ω) (o s nd : Nat)
deriving DecidableEq

/-- Prepend this iteration's pushed outputs to the loop result. -/
def prependOuts (ws : List ω) : LoopRes ω → LoopRes ω
  | .next outs o s nd => .next (ws ++ outs) o s nd
  | .fail outs e => .fail (ws ++ outs) e
  | .out outs o s nd => .out (ws ++ outs) o s nd

/-- The `while (true)` loop, fuelled (the loop always terminates from
reachable states; see `runLoop_not_out`). -/
def runLoop (env : MachineEnv ω) (B : Bytes) : Nat → Nat → Nat → Nat → LoopRes ω
  | 0, o, s, nd => .out [] o s nd
  | f + 1, o, s, nd =>
    match step env B o s nd with
    | .next o1 s1 nd1 => .next [] o1 s1 nd1
    | .fail e => .fail [] e
    | .cont ws o1 s1 nd1 => prependOuts ws (runLoop env B f o1 s1 nd1)

/-- Fuel that always suffices for buffer `B` (proved in `runLoop_not_out`). -/
def loopFuel (B : Bytes) : Nat :=
  3 * B.length + 9

/-- The loop with sufficient fuel. -/
def runFull (env : MachineEnv ω) (B : Bytes) (o s nd : Nat) : LoopRes ω :=
  runLoop env B (loopFuel B) o s nd

/-- The mutable state of an `OSMTransform` between `_transform` calls.
`buffer = none` is the initial `undefined` buffer. -/
structure FState where
  buffer : Option Bytes
  offset : Nat
  status : Nat
  needed : Nat
deriving DecidableEq, Repr

/-- The constructor-established state: no buffer, offset 0, status 0
(header length), 4 bytes needed. -/
def initState : FState :=
  ⟨none, 0, 0, 4⟩

/-- `_transform`: concatenate the unconsumed suffix with the new chunk
(first chunk: adopt it), run the loop; `next` keeps the machine state for the
following chunk, `fail` propagates the thrown error. -/
def transform (env : MachineEnv ω) (st : FState) (chunk : Bytes) :
    List ω × Except String FState :=
  let B := match st.buffer with
    | none => chunk
    | some b => b.drop st.offset ++ chunk
  let o := match st.buffer with
    | none => st.offset
    | some _ => 0
  match runFull env B o st.status st.needed with
  | .next outs o1 s1 nd1 => (outs, .ok ⟨some B, o1, s1, nd1⟩)
  | .fail outs e => (outs, .error e)
  | .out outs _ _ _ => (outs, .error "loop fuel exhausted")

/-- `_flush`: `assert(this.buffer?.length == this.offset && this.status == 0)`.
With an undefined buffer the JS comparison `undefined == 0` is false, so the
assertion throws. -/
def flushCheck (st : FState) : Except String Unit :=
  match st.buffer with
  | none => .error "input format error"
  | some b =>
    if b.length = st.offset ∧ st.status = 0 then .ok () else .error "input format error"

/-- Feed a sequence of chunks, accumulating pushed outputs; a thrown error
stops the stream. -/
def feedChunks (env : MachineEnv ω) : FState → List Bytes → List ω × Except String FState
  | st, [] => ([], .ok st)
  | st, c :: cs =>
    match transform env st c with
    | (outs, .error e) => (outs, .error e)
    | (outs, .ok st1) =>
      let r := feedChunks env st1 cs
      (outs ++ r.1, r.2)

/-- A full decode session: feed all chunks from the initial state, then
`_flush`. -/
def runAll (env : MachineEnv ω) (chunks : List Bytes) : List ω × Except String Unit :=
  match feedChunks env initState chunks with
  | (outs, .error e) => (outs, .error e)
  | (outs, .ok st) => (outs, flushCheck st)

/-! ### Lemmas about the framing machine -/

/-- Did the loop run out of fuel? -/
def isOut : LoopRes ω → Bool
  | .out _ _ _ _ => true
  | _ => false

/-- Shift all buffer offsets in a loop result down by `k` (used to relate a
run on a compacted buffer with a run on the full buffer). -/
def shiftRes (k : Nat) : LoopRes ω → LoopRes ω
  | .next outs o s nd => .next outs (o - k) s nd
  | .fail outs e => .fail outs e
  | .out outs o s nd => .out outs (o - k) s nd

/-- States of the machine reachable from the constructor state: the cursor is
inside the buffer, the status is one of the four loop branches, and the
header-length state always requires exactly 4 bytes. -/
def Inv (B : Bytes) (o s nd : Nat) : Prop :=
  o ≤ B.length ∧ s ≤ 3 ∧ (s = 0 → nd = 4)

/-- Rank of a status in the cyclic progress measure (a full cycle
1 → 2/3 → 0 consumes at least the 4 bytes of the next length word). -/
def rank (s : Nat) : Nat :=
  if s = 1 then 2 else if s = 0 then 0 else 1

/-- Progress measure for the loop: strictly decreases on every `cont` step
from an invariant state. -/
def mVal (B : Bytes) (o s : Nat) : Nat :=
  3 * (B.length - o) + rank s

/-- Two machine states that agree on status, needed count and unconsumed
bytes (the only parts observable by future `_transform` calls and by
`_flush`). -/
def stEquiv (st st2 : FState) : Prop :=
  st.status = st2.status ∧ st.needed = st2.needed ∧
  ∃ b b2, st.buffer = some b ∧ st2.buffer = some b2 ∧
    st.offset ≤ b.length ∧ st2.offset ≤ b2.length ∧
    b.drop st.offset = b2.drop st2.offset

/-- Equivalence of decode outcomes: identical outputs, and either the same
error or equivalent machine states. -/
def resEquiv : List ω × Except String FState → List ω × Except String FState → Prop
  | (outs, .ok st), (outs2, .ok st2) => outs = outs2 ∧ stEquiv st st2
  | (outs, .error e), (outs2, .error e2) => outs = outs2 ∧ e = e2
  | _, _ => False

/-- Concrete blob-decode environment used by the witnesses. -/
def envW : MachineEnv Nat :=
  { readBlobHeader := fun _ => .ok ("OSMHeader", 0)
    decodeHeaderBlob := fun bs => .ok bs.length
    decodeDataBlob := fun bs => .ok (bs.length + 100) }

/-- Concrete block context for the C4 witness. -/
def dataW4 : BlockData :=
  ⟨["", "alice"], 10000000, 0, 0, 1000,
    ⟨some (.flag true), some (.flag true), some (.flag true)⟩, true⟩

/-- Concrete wire info for the C4 witness. -/
def iwW4 : InfoWire := ⟨2, 3, 0, 0, 1, some true⟩

/-- Concrete wire node for the C4 witness. -/
def nW4 : NodeWire := ⟨5, 0, 0, [], [], some iwW4⟩

/-- The node `parse_node` produces for `nW4` under `dataW4`. -/
def nodeW4 : NodeOut :=
  ⟨5, dataW4.lat_offset + (nW4.lat : ℚ) / dataW4.granularity,
    dataW4.lon_offset + (nW4.lon : ℚ) / dataW4.granularity,
    none, some ⟨some 2, some 3000, none, none, some "alice", none⟩⟩

/-- Concrete relation wire record for the C9 witness: second member has the
out-of-range type 5. -/
def rW9 : RelWire := ⟨7, [1, 2], [0, 5], [0, 0], [], [], none⟩

/-- Concrete block context for the C9 witness (relation tags disabled). -/
def dataW9 : BlockData :=
  ⟨[""], 10000000, 0, 0, 1000,
    ⟨some (.flag true), some (.flag true), some (.flag false)⟩, false⟩

/-- The wire `Blob` record as produced by `Blob.read` in
src/proto/fileformat.ts: each payload field is set by its own tag, and `data`
records the name of the last payload field read (`null` initially). -/
structure BlobR where
  raw_size : Int := 0
  data : Option String := none
  raw : Option Bytes := none
  zlib_data : Option Bytes := none
  lzma_data : Option Bytes := none
  obsolete_bzip2_data : Option Bytes := none
  lz4_data : Option Bytes := none
  zstd_data : Option Bytes := none
deriving DecidableEq, Repr

/-- `${blob.data}` in the error message template (`null` when no payload
field was read). -/
def blobDataName (b : BlobR) : String :=
  b.data.getD "null"

/-- Payload selection for an OSMHeader blob (status 2 of `_transform`):
`blob.zlib_data ? inflateSync(blob.zlib_data) : blob.raw` followed by
`assert(buf, ...)`. -/
def headerBlobPayload (inflate : Bytes → Except String Bytes) (b : BlobR) :
    Except String Bytes :=
  match b.zlib_data with
  | some z => inflate z
  | none =>
    match b.raw with
    | some r => .ok r
    | none => .error ("inflating " ++ blobDataName b ++ " not implemented")

/-- Payload selection for an OSMData blob (status 3 of `_transform`):
`assert(blob.zlib_data, ...)` then `inflateSync(blob.zlib_data)` — note that
unlike status 2, `raw` is NOT accepted here. -/
def dataBlobPayload (inflate : Bytes → Except String Bytes) (b : BlobR) :
    Except String Bytes :=
  match b.zlib_data with
  | some z => inflate z
  | none => .error ("inflating " ++ blobDataName b ++ " not implemented")

/-- Identity stand-in for `inflateSync` in concrete counterexamples. -/
def inflId : Bytes → Except String Bytes := fun bs => .ok bs

/-- Machine environment whose data-blob decode always fails (C5 witness). -/
def envW5 : MachineEnv Nat :=
  { readBlobHeader := fun _ => .ok ("OSMData", 1)
    decodeHeaderBlob := fun _ => .ok 0
    decodeDataBlob := fun _ => .error "inflating lzma_data not implemented" }

/-- Dense-info record whose `visible` array is shorter than `id` (C8). -/
def diEx8 : DenseInfoWire := ⟨[0], [0], [0], [0], [1], []⟩

/-- Dense record carrying `diEx8` (C8). -/
def dEx8 : DenseWire := ⟨[0], [0], [0], [], some diEx8⟩

/-- Block context with info enabled and all tag policies disabled (C8). -/
def dataEx8 : BlockData :=
  ⟨[], 10000000, 0, 0, 1000,
    ⟨some (.flag false), some (.flag false), some (.flag false)⟩, true⟩

/-- The node `parse_dense` emits for `dEx8` under `dataEx8`. -/
def nodeEx8 : NodeOut :=
  ⟨0, dataEx8.lat_offset + ((0 : Int) : ℚ) / dataEx8.granularity,
    dataEx8.lon_offset + ((0 : Int) : ℚ) / dataEx8.granularity,
    none, some ⟨some 1, none, none, none, none, none⟩⟩

/-- Wire node with mismatched tag arrays (C8 witness). -/
def nW8 : NodeWire := ⟨1, 0, 0, [0], [], none⟩

/-- Block context with the node tag policy enabled (C8 witness). -/
def dataW8 : BlockData :=
  ⟨[], 10000000, 0, 0, 1000,
    ⟨some (.flag true), some (.flag true), some (.flag true)⟩, false⟩

/-- Dense record whose dense-info timestamp array is too short (C8 witness). -/
def dW8 : DenseWire := ⟨[0], [0], [0], [], some ⟨[], [0], [0], [0], [1], []⟩⟩

/-- Block context with every policy disabled and info disabled (C8 witness). -/
def dataW8f : BlockData :=
  ⟨[], 10000000, 0, 0, 1000,
    ⟨some (.flag false), some (.flag false), some (.flag false)⟩, false⟩

/-- The spec-side resolved tag policy per kind. -/
inductive TagPolicy where
  | Disabled
  | AllowAll
  | AllowSet (s : List String)
deriving DecidableEq, Repr

/-- Mapping from the stored per-kind entry to the spec-side policy: missing
entries and `false` are Disabled, `true` is AllowAll, a key set is AllowSet. -/
def policyOf : Option KindSetting → TagPolicy
  | none => .Disabled
  | some (.flag false) => .Disabled
  | some (.flag true) => .AllowAll
  | some (.keyset s) => .AllowSet s

/-- A key occurs in a tag map. -/
def keyMem (m : List (String × String)) (k : String) : Bool :=
  m.any (fun p => p.1 = k)

/-- Block context with AllowAll node policy (C2 witness). -/
def dataW2 : BlockData :=
  ⟨["", "k", "v"], 10000000, 0, 0, 1000,
    ⟨some (.flag true), some (.flag true), some (.flag true)⟩, false⟩

/-- Wire node with one tag pair (C2 witness). -/
def nW2 : NodeWire := ⟨9, 0, 0, [1], [2], none⟩

/-- The node `parse_node` produces for `nW2` under `dataW2`. -/
def nodeW2 : NodeOut :=
  ⟨9, dataW2.lat_offset + (nW2.lat : ℚ) / dataW2.granularity,
    dataW2.lon_offset + (nW2.lon : ℚ) / dataW2.granularity,
    some [("k", "v")], none⟩

/-- Interleave a segment of key/value index pairs into the dense
`keys_vals` wire layout. -/
def pairsToKv : List (Int × Int) → List Int
  | [] => []
  | q :: seg => q.1 :: q.2 :: pairsToKv seg

/-- Build a `keys_vals` array from per-node segments, each terminated by the
in-band 0 sentinel. -/
def mkKV : List (List (Int × Int)) → List Int
  | [] => []
  | seg :: segs => pairsToKv seg ++ 0 :: mkKV segs

/-- One filtered map insertion, as performed for each pair of a dense tag
segment. -/
def insTag (setting : Option KindSetting) (strings : List String)
    (m : List (String × String)) (q : Int × Int) : List (String × String) :=
  if allowKey setting (strAtI strings q.1) then
    upsert m (strAtI strings q.1) (strAtI strings q.2)
  else m

/-- The tag map a dense node's segment assembles. -/
def segTags (setting : Option KindSetting) (strings : List String)
    (seg : List (Int × Int)) : List (String × String) :=
  seg.foldl (insTag setting strings) []

/-- Block context for the C3 concrete scenario. -/
def dataC3 : BlockData :=
  ⟨[], 10000000, 15, -7, 1000,
    ⟨some (.flag true), some (.flag true), some (.flag true)⟩, false⟩

/-- The three nodes of the C3 concrete scenario. -/
def nodesC3 : List NodeOut :=
  [⟨1, dataC3.lat_offset + ((0 : Int) : ℚ) / dataC3.granularity,
     dataC3.lon_offset + ((0 : Int) : ℚ) / dataC3.granularity, none, none⟩,
   ⟨2, dataC3.lat_offset + ((0 : Int) : ℚ) / dataC3.granularity,
     dataC3.lon_offset + ((0 : Int) : ℚ) / dataC3.granularity, none, none⟩,
   ⟨3, dataC3.lat_offset + ((0 : Int) : ℚ) / dataC3.granularity,
     dataC3.lon_offset + ((0 : Int) : ℚ) / dataC3.granularity, none, none⟩]

/-- Dense record segmented into two tag segments (C3 witness). -/
def dSegW3 : DenseWire := ⟨[0, 0], [0, 0], [0, 0], [1, 2, 0, 0], none⟩

/-- Block context with strings and AllowAll node policy (C3 witness). -/
def dataSegW3 : BlockData :=
  ⟨["", "k", "v"], 10000000, 0, 0, 1000,
    ⟨some (.flag true), some (.flag true), some (.flag true)⟩, false⟩

/-- The nodes `parse_dense` produces for `dSegW3` under `dataSegW3`. -/
def nodesSegW3 : List NodeOut :=
  [⟨0, dataSegW3.lat_offset + ((0 : Int) : ℚ) / dataSegW3.granularity,
     dataSegW3.lon_offset + ((0 : Int) : ℚ) / dataSegW3.granularity,
     some [("k", "v")], none⟩,
   ⟨0, dataSegW3.lat_offset + ((0 : Int) : ℚ) / dataSegW3.granularity,
     dataSegW3.lon_offset + ((0 : Int) : ℚ) / dataSegW3.granularity,
     none, none⟩]

theorem prependOuts_nil (r : LoopRes ω) : prependOuts [] r = r := by
  cases r <;> simp [prependOuts]

theorem prependOuts_append (a b : List ω) (r : LoopRes ω) :
    prependOuts (a ++ b) r = prependOuts a (prependOuts b r) := by
  cases r <;> simp [prependOuts]

theorem isOut_prependOuts (ws : List ω) (r : LoopRes ω) :
    isOut (prependOuts ws r) = isOut r := by
  cases r <;> simp [prependOuts, isOut]

theorem length_slice (B : Bytes) (o n : Nat) :
    (slice B o n).length = min n (B.length - o) := by
  simp [slice]

theorem slice_zero (B : Bytes) (o : Nat) : slice B o 0 = [] := by
  simp [slice]

theorem readU32BE_isSome (B : Bytes) (o : Nat) (h : o + 4 ≤ B.length) :
    ∃ w, readU32BE B o = some w := by
  have hlen : (slice B o 4).length = 4 := by
    rw [length_slice]; omega
  unfold readU32BE
  cases hs : slice B o 4 with
  | nil => rw [hs] at hlen; simp at hlen
  | cons b0 t0 =>
    cases t0 with
    | nil => rw [hs] at hlen; simp at hlen
    | cons b1 t1 =>
      cases t1 with
      | nil => rw [hs] at hlen; simp at hlen
      | cons b2 t2 =>
        cases t2 with
        | nil => rw [hs] at hlen; simp at hlen
        | cons b3 t3 =>
          cases t3 with
          | nil => exact ⟨_, rfl⟩
          | cons b4 t4 => rw [hs] at hlen; simp at hlen

theorem slice_append (B C : Bytes) (o n : Nat) (h : o + n ≤ B.length) :
    slice (B ++ C) o n = slice B o n := by
  unfold slice
  rw [List.drop_append_eq_append_drop]
  have h1 : o - B.length = 0 := by omega
  rw [h1, List.drop_zero, List.take_append_of_le_length]
  simp; omega

theorem readU32BE_append (B C : Bytes) (o : Nat) (h : o + 4 ≤ B.length) :
    readU32BE (B ++ C) o = readU32BE B o := by
  unfold readU32BE
  rw [slice_append B C o 4 h]

/-- A `next` step returns the state unchanged and means the guard fired. -/
theorem step_next_eq {env : MachineEnv ω} {B : Bytes} {o s nd o1 s1 nd1 : Nat}
    (h : step env B o s nd = .next o1 s1 nd1) :
    o1 = o ∧ s1 = s ∧ nd1 = nd ∧ nd ≠ 0 ∧ B.length - o < nd := by
  by_cases hg : nd ≠ 0 ∧ B.length - o < nd
  · rw [step, if_pos hg] at h
    cases h
    exact ⟨rfl, rfl, rfl, hg.1, hg.2⟩
  · rw [step, if_neg hg] at h
    exfalso
    split at h
    · cases hm : readU32BE B o <;> rw [hm] at h <;> cases h
    · split at h
      · cases hm : env.readBlobHeader (slice B o nd) <;> rw [hm] at h
        · cases h
        · dsimp at h
          split at h
          · cases h
          · cases h
      · split at h
        · cases hm : env.decodeHeaderBlob (slice B o nd) <;> rw [hm] at h <;> cases h
        · split at h
          · cases hm : env.decodeDataBlob (slice B o nd) <;> rw [hm] at h <;> cases h
          · cases h

theorem step_guard_true {env : MachineEnv ω} {B : Bytes} {o s nd : Nat}
    (h : nd ≠ 0 ∧ B.length - o < nd) : step env B o s nd = .next o s nd := by
  rw [step, if_pos h]

/-- A `cont` step from an invariant state preserves the invariant, strictly
decreases the progress measure, and moves the cursor forward within the
buffer. -/
theorem step_cont_inv {env : MachineEnv ω} {B : Bytes} {o s nd : Nat} {ws : List ω}
    {o1 s1 nd1 : Nat} (hInv : Inv B o s nd) (h : step env B o s nd = .cont ws o1 s1 nd1) :
    Inv B o1 s1 nd1 ∧ mVal B o1 s1 < mVal B o s ∧ o ≤ o1 := by
  obtain ⟨hoB, hs3, hnd4⟩ := hInv
  by_cases hg : nd ≠ 0 ∧ B.length - o < nd
  · rw [step, if_pos hg] at h; cases h
  · have hcons : nd = 0 ∨ nd ≤ B.length - o := by omega
    rw [step, if_neg hg] at h
    split at h
    · -- status 0: read the length word
      rename_i hs0
      have h4 : nd = 4 := hnd4 hs0
      have hle : o + 4 ≤ B.length := by omega
      cases hm : readU32BE B o <;> rw [hm] at h
      · cases h
      · cases h
        subst hs0 h4
        refine ⟨⟨by omega, by omega, by omega⟩, ?_, by omega⟩
        simp only [mVal, rank]
        norm_num
        omega
    · split at h
      · -- status 1: BlobHeader
        rename_i hs0 hs1
        cases hm : env.readBlobHeader (slice B o nd) <;> rw [hm] at h
        · cases h
        · rename_i pr
          obtain ⟨ty, ds⟩ := pr
          dsimp at h
          split at h
          · by_cases hty : ty = "OSMHeader"
            · rw [if_pos hty] at h
              cases h
              subst hs1
              refine ⟨⟨by omega, by omega, by omega⟩, ?_, by omega⟩
              simp only [mVal, rank]
              norm_num
              omega
            · rw [if_neg hty] at h
              cases h
              subst hs1
              refine ⟨⟨by omega, by omega, by omega⟩, ?_, by omega⟩
              simp only [mVal, rank]
              norm_num
              omega
          · cases h
      · split at h
        · -- status 2: OSMHeader blob
          rename_i hs0 hs1 hs2
          cases hm : env.decodeHeaderBlob (slice B o nd) <;> rw [hm] at h
          · cases h
          · cases h
            subst hs2
            refine ⟨⟨by omega, by omega, by omega⟩, ?_, by omega⟩
            simp only [mVal, rank]
            norm_num
            omega
        · split at h
          · -- status 3: OSMData blob
            rename_i hs0 hs1 hs2 hs3'
            cases hm : env.decodeDataBlob (slice B o nd) <;> rw [hm] at h
            · cases h
            · cases h
              subst hs3'
              refine ⟨⟨by omega, by omega, by omega⟩, ?_, by omega⟩
              simp only [mVal, rank]
              norm_num
              omega
          · cases h

/-- Extending the buffer does not change a step taken from an invariant state
whose guard did not fire: every read stays within the original buffer. -/
theorem step_frameExt {env : MachineEnv ω} {B : Bytes} (C : Bytes) {o s nd : Nat}
    (hInv : Inv B o s nd) (hg : ¬(nd ≠ 0 ∧ B.length - o < nd)) :
    step env (B ++ C) o s nd = step env B o s nd := by
  obtain ⟨hoB, hs3, hnd4⟩ := hInv
  have hlen : (B ++ C).length = B.length + C.length := List.length_append B C
  have hcons : nd = 0 ∨ nd ≤ B.length - o := by omega
  have hg2 : ¬(nd ≠ 0 ∧ (B ++ C).length - o < nd) := by omega
  rw [step, step, if_neg hg, if_neg hg2]
  by_cases hs0 : s = 0
  · have h4 : o + 4 ≤ B.length := by have := hnd4 hs0; omega
    rw [if_pos hs0, if_pos hs0, readU32BE_append B C o h4]
  · have hslice : slice (B ++ C) o nd = slice B o nd := by
      rcases hcons with h0 | hle
      · rw [h0, slice_zero, slice_zero]
      · exact slice_append B C o nd (by omega)
    rw [if_neg hs0, if_neg hs0, hslice]

theorem runLoop_succ (env : MachineEnv ω) (B : Bytes) (f o s nd : Nat) :
    runLoop env B (f + 1) o s nd =
      match step env B o s nd with
      | .next o1 s1 nd1 => .next [] o1 s1 nd1
      | .fail e => .fail [] e
      | .cont ws o1 s1 nd1 => prependOuts ws (runLoop env B f o1 s1 nd1) := rfl

/-- From an invariant state, fuel above the progress measure never runs out. -/
theorem runLoop_not_out {env : MachineEnv ω} {B : Bytes} :
    ∀ f o s nd, Inv B o s nd → mVal B o s < f → isOut (runLoop env B f o s nd) = false := by
  intro f
  induction f with
  | zero => intro o s nd _ hm; omega
  | succ f ih =>
    intro o s nd hInv hm
    rw [runLoop_succ]
    cases hstep : step env B o s nd with
    | next o1 s1 nd1 => rfl
    | fail e => rfl
    | cont ws o1 s1 nd1 =>
      obtain ⟨hInv1, hlt, _⟩ := step_cont_inv hInv hstep
      dsimp only
      rw [isOut_prependOuts]
      exact ih o1 s1 nd1 hInv1 (by omega)

/-- Once the loop terminates within some fuel, more fuel gives the same
result. -/
theorem runLoop_fuel_stable {env : MachineEnv ω} {B : Bytes} :
    ∀ f g o s nd, f ≤ g → isOut (runLoop env B f o s nd) = false →
      runLoop env B g o s nd = runLoop env B f o s nd := by
  intro f
  induction f with
  | zero => intro g o s nd _ hout; simp [runLoop, isOut] at hout
  | succ f ih =>
    intro g o s nd hfg hout
    obtain ⟨g1, rfl⟩ : ∃ g1, g = g1 + 1 := ⟨g - 1, by omega⟩
    rw [runLoop_succ, runLoop_succ]
    rw [runLoop_succ] at hout
    cases hstep : step env B o s nd with
    | next o1 s1 nd1 => rfl
    | fail e => rfl
    | cont ws o1 s1 nd1 =>
      rw [hstep] at hout
      dsimp only at hout ⊢
      rw [isOut_prependOuts] at hout
      rw [ih g1 o1 s1 nd1 (by omega) hout]

/-- Any sufficient fuel computes `runFull`. -/
theorem runFull_eq_fuel {env : MachineEnv ω} {B : Bytes} {o s nd : Nat}
    (hInv : Inv B o s nd) (f : Nat) (hf : mVal B o s < f) :
    runLoop env B f o s nd = runFull env B o s nd := by
  have hmin : isOut (runLoop env B (mVal B o s + 1) o s nd) = false :=
    runLoop_not_out (mVal B o s + 1) o s nd hInv (by omega)
  have h1 : runLoop env B f o s nd = runLoop env B (mVal B o s + 1) o s nd :=
    runLoop_fuel_stable (mVal B o s + 1) f o s nd (by omega) hmin
  have hfuel : mVal B o s + 1 ≤ loopFuel B := by
    have : mVal B o s ≤ 3 * B.length + 2 := by
      simp only [mVal, rank]
      split <;> [omega; split <;> omega]
    simp only [loopFuel]; omega
  have h2 : runLoop env B (loopFuel B) o s nd = runLoop env B (mVal B o s + 1) o s nd :=
    runLoop_fuel_stable (mVal B o s + 1) (loopFuel B) o s nd hfuel hmin
  rw [runFull, h1, h2]

theorem runFull_not_out {env : MachineEnv ω} {B : Bytes} {o s nd : Nat}
    (hInv : Inv B o s nd) : isOut (runFull env B o s nd) = false := by
  apply runLoop_not_out _ _ _ _ hInv
  have : mVal B o s ≤ 3 * B.length + 2 := by
    simp only [mVal, rank]
    split <;> [omega; split <;> omega]
  simp only [loopFuel]; omega

/-- Unfolding one `cont` step under `runFull`. -/
theorem runFull_unfold_cont {env : MachineEnv ω} {B : Bytes} {o s nd : Nat} {ws : List ω}
    {o1 s1 nd1 : Nat} (hInv : Inv B o s nd) (hstep : step env B o s nd = .cont ws o1 s1 nd1) :
    runFull env B o s nd = prependOuts ws (runFull env B o1 s1 nd1) := by
  obtain ⟨hInv1, hlt, _⟩ := step_cont_inv hInv hstep
  have hf : loopFuel B = (3 * B.length + 8) + 1 := by simp [loopFuel]
  rw [runFull, hf, runLoop_succ, hstep]
  dsimp only
  congr 1
  apply runFull_eq_fuel hInv1
  have : mVal B o1 s1 ≤ 3 * B.length + 2 := by
    simp only [mVal, rank]
    split <;> [omega; split <;> omega]
  omega

/-- A state whose guard fires returns `next` immediately with no output. -/
theorem runFull_next_of_stopped {env : MachineEnv ω} {B : Bytes} {o s nd : Nat}
    (h : nd ≠ 0 ∧ B.length - o < nd) : runFull env B o s nd = .next [] o s nd := by
  have hf : loopFuel B = (3 * B.length + 8) + 1 := by simp [loopFuel]
  rw [runFull, hf, runLoop_succ, step_guard_true h]

/-- A failing step makes the whole loop fail with no output pushed in this
call (the entities of the failing block are never emitted). -/
theorem runFull_fail_of_step {env : MachineEnv ω} {B : Bytes} {o s nd : Nat} {e : String}
    (h : step env B o s nd = .fail e) : runFull env B o s nd = .fail [] e := by
  have hf : loopFuel B = (3 * B.length + 8) + 1 := by simp [loopFuel]
  rw [runFull, hf, runLoop_succ, h]

/-- A loop that returns `next` leaves an invariant state whose guard fires
(too few bytes), with a cursor that only moved forward. -/
theorem runLoop_next_inv {env : MachineEnv ω} {B : Bytes} :
    ∀ f o s nd outs o1 s1 nd1, Inv B o s nd →
      runLoop env B f o s nd = .next outs o1 s1 nd1 →
      Inv B o1 s1 nd1 ∧ o ≤ o1 ∧ nd1 ≠ 0 ∧ B.length - o1 < nd1 := by
  intro f
  induction f with
  | zero => intro o s nd outs o1 s1 nd1 _ h; simp [runLoop] at h
  | succ f ih =>
    intro o s nd outs o1 s1 nd1 hInv h
    rw [runLoop_succ] at h
    cases hstep : step env B o s nd with
    | next o2 s2 nd2 =>
      rw [hstep] at h
      cases h
      obtain ⟨ho, hs, hnd, hne, hlt⟩ := step_next_eq hstep
      subst ho hs hnd
      exact ⟨hInv, Nat.le_refl _, hne, hlt⟩
    | fail e => rw [hstep] at h; cases h
    | cont ws o2 s2 nd2 =>
      rw [hstep] at h
      dsimp only at h
      obtain ⟨hInv1, _, hle⟩ := step_cont_inv hInv hstep
      cases hr : runLoop env B f o2 s2 nd2 <;> rw [hr] at h <;> simp [prependOuts] at h
      obtain ⟨_, ho1, hs1, hnd1⟩ := h
      subst ho1 hs1 hnd1
      obtain ⟨hInvR, hleR, hrest⟩ := ih o2 s2 nd2 _ _ _ _ hInv1 hr
      exact ⟨hInvR, by omega, hrest⟩

/-- The key extension lemma: a loop on `B` that stops for more input, or
fails, replays identically on `B ++ C` up to that point; a stop resumes from
the stop state, a failure stays the same failure with the same outputs. -/
theorem runLoop_ext {env : MachineEnv ω} {B : Bytes} (C : Bytes) :
    ∀ f o s nd, Inv B o s nd →
      (∀ outs o1 s1 nd1, runLoop env B f o s nd = .next outs o1 s1 nd1 →
        runFull env (B ++ C) o s nd = prependOuts outs (runFull env (B ++ C) o1 s1 nd1)) ∧
      (∀ outs e, runLoop env B f o s nd = .fail outs e →
        runFull env (B ++ C) o s nd = .fail outs e) := by
  intro f
  induction f with
  | zero =>
    intro o s nd _
    constructor
    · intro outs o1 s1 nd1 h; simp [runLoop] at h
    · intro outs e h; simp [runLoop] at h
  | succ f ih =>
    intro o s nd hInv
    have hInvC : Inv (B ++ C) o s nd := by
      obtain ⟨h1, h2, h3⟩ := hInv
      refine ⟨?_, h2, h3⟩
      rw [List.length_append]; omega
    constructor
    · intro outs o1 s1 nd1 h
      rw [runLoop_succ] at h
      cases hstep : step env B o s nd with
      | next o2 s2 nd2 =>
        rw [hstep] at h
        cases h
        obtain ⟨ho, hs, hnd, _, _⟩ := step_next_eq hstep
        subst ho hs hnd
        rw [prependOuts_nil]
      | fail e => rw [hstep] at h; cases h
      | cont ws o2 s2 nd2 =>
        rw [hstep] at h
        dsimp only at h
        obtain ⟨hInv1, _, _⟩ := step_cont_inv hInv hstep
        have hguard : ¬(nd ≠ 0 ∧ B.length - o < nd) := by
          intro hg
          rw [step_guard_true hg] at hstep
          cases hstep
        have hstepC : step env (B ++ C) o s nd = .cont ws o2 s2 nd2 := by
          rw [step_frameExt C hInv hguard, hstep]
        have hunfold := runFull_unfold_cont hInvC hstepC
        cases hr : runLoop env B f o2 s2 nd2 <;> rw [hr] at h <;> simp [prependOuts] at h
        obtain ⟨houts, ho1, hs1, hnd1⟩ := h
        subst ho1 hs1 hnd1
        rw [hunfold, (ih o2 s2 nd2 hInv1).1 _ _ _ _ hr, ← houts, prependOuts_append]
    · intro outs e h
      rw [runLoop_succ] at h
      cases hstep : step env B o s nd with
      | next o2 s2 nd2 => rw [hstep] at h; cases h
      | fail e2 =>
        rw [hstep] at h
        cases h
        have hguard : ¬(nd ≠ 0 ∧ B.length - o < nd) := by
          intro hg
          rw [step_guard_true hg] at hstep
          cases hstep
        apply runFull_fail_of_step
        rw [step_frameExt C hInv hguard, hstep]
      | cont ws o2 s2 nd2 =>
        rw [hstep] at h
        dsimp only at h
        obtain ⟨hInv1, _, _⟩ := step_cont_inv hInv hstep
        have hguard : ¬(nd ≠ 0 ∧ B.length - o < nd) := by
          intro hg
          rw [step_guard_true hg] at hstep
          cases hstep
        have hstepC : step env (B ++ C) o s nd = .cont ws o2 s2 nd2 := by
          rw [step_frameExt C hInv hguard, hstep]
        have hunfold := runFull_unfold_cont hInvC hstepC
        cases hr : runLoop env B f o2 s2 nd2 <;> rw [hr] at h <;> simp [prependOuts] at h
        obtain ⟨houts, he⟩ := h
        subst he
        rw [hunfold, (ih o2 s2 nd2 hInv1).2 _ _ hr, ← houts]
        simp [prependOuts]

theorem slice_drop (B : Bytes) (k o n : Nat) (hk : k ≤ o) :
    slice (B.drop k) (o - k) n = slice B o n := by
  unfold slice
  rw [List.drop_drop]
  congr 2
  omega

theorem readU32BE_drop (B : Bytes) (k o : Nat) (hk : k ≤ o) :
    readU32BE (B.drop k) (o - k) = readU32BE B o := by
  unfold readU32BE
  rw [slice_drop B k o 4 hk]

/-- A step on the compacted buffer `B.drop k` equals the step on `B` with all
offsets shifted by `k`. -/
theorem step_shift {env : MachineEnv ω} {B : Bytes} {k o s nd : Nat} (hk : k ≤ o) :
    step env (B.drop k) (o - k) s nd =
      (match step env B o s nd with
       | .next o1 s1 nd1 => .next (o1 - k) s1 nd1
       | .cont ws o1 s1 nd1 => .cont ws (o1 - k) s1 nd1
       | .fail e => .fail e) := by
  have hlen : (B.drop k).length = B.length - k := List.length_drop k B
  have hguard : ((B.drop k).length - (o - k) < nd) = (B.length - o < nd) := by
    rw [hlen]
    congr 1
    omega
  by_cases hg : nd ≠ 0 ∧ B.length - o < nd
  · rw [step, if_pos (by rw [hguard]; exact hg), step_guard_true hg]
  · have hg2 : ¬(nd ≠ 0 ∧ (B.drop k).length - (o - k) < nd) := by rw [hguard]; exact hg
    rw [step, step, if_neg hg2, if_neg hg]
    by_cases hs0 : s = 0
    · rw [if_pos hs0, if_pos hs0, readU32BE_drop B k o hk]
      cases readU32BE B o
      · rfl
      · dsimp only
        congr 1
        omega
    · rw [if_neg hs0, if_neg hs0, slice_drop B k o nd hk]
      by_cases hs1 : s = 1
      · rw [if_pos hs1, if_pos hs1]
        cases env.readBlobHeader (slice B o nd) with
        | error e => rfl
        | ok pr =>
          obtain ⟨ty, ds⟩ := pr
          dsimp only
          split
          · congr 1; omega
          · rfl
      · rw [if_neg hs1, if_neg hs1]
        by_cases hs2 : s = 2
        · rw [if_pos hs2, if_pos hs2]
          cases env.decodeHeaderBlob (slice B o nd) with
          | error e => rfl
          | ok w => dsimp only; congr 1; omega
        · rw [if_neg hs2, if_neg hs2]
          by_cases hs3 : s = 3
          · rw [if_pos hs3, if_pos hs3]
            cases env.decodeDataBlob (slice B o nd) with
            | error e => rfl
            | ok w => dsimp only; congr 1; omega
          · rw [if_neg hs3, if_neg hs3]

/-- Running on the compacted buffer shifts all result offsets by `k`. -/
theorem runLoop_shift {env : MachineEnv ω} {B : Bytes} {k : Nat} :
    ∀ f o s nd, k ≤ o →
      runLoop env (B.drop k) f (o - k) s nd = shiftRes k (runLoop env B f o s nd) := by
  intro f
  induction f with
  | zero => intro o s nd hk; simp [runLoop, shiftRes]
  | succ f ih =>
    intro o s nd hk
    rw [runLoop_succ, runLoop_succ, step_shift hk]
    cases hstep : step env B o s nd with
    | next o1 s1 nd1 => simp [shiftRes]
    | fail e => simp [shiftRes]
    | cont ws o1 s1 nd1 =>
      dsimp only
      have hko1 : k ≤ o1 := by
        by_cases hg : nd ≠ 0 ∧ B.length - o < nd
        · rw [step_guard_true hg] at hstep; cases hstep
        · -- every cont advances the cursor: o1 = o + nd in all branches
          have : o ≤ o1 := by
            rw [step, if_neg hg] at hstep
            split at hstep
            · cases hm : readU32BE B o <;> rw [hm] at hstep
              · cases hstep
              · cases hstep; omega
            · split at hstep
              · cases hm : env.readBlobHeader (slice B o nd) <;> rw [hm] at hstep
                · cases hstep
                · rename_i pr
                  obtain ⟨ty, ds⟩ := pr
                  dsimp at hstep
                  split at hstep
                  · cases hstep; omega
                  · cases hstep
              · split at hstep
                · cases hm : env.decodeHeaderBlob (slice B o nd) <;> rw [hm] at hstep
                  · cases hstep
                  · cases hstep; omega
                · split at hstep
                  · cases hm : env.decodeDataBlob (slice B o nd) <;> rw [hm] at hstep
                    · cases hstep
                    · cases hstep; omega
                  · cases hstep
          omega
      rw [ih o1 s1 nd1 hko1]
      cases runLoop env B f o1 s1 nd1 <;> simp [shiftRes, prependOuts]

theorem runFull_shift {env : MachineEnv ω} {B : Bytes} {k o s nd : Nat}
    (hInv : Inv B o s nd) (hk : k ≤ o) :
    runFull env (B.drop k) (o - k) s nd = shiftRes k (runFull env B o s nd) := by
  rw [runFull, runLoop_shift _ _ _ _ hk]
  congr 1
  apply runFull_eq_fuel hInv
  have hlen : (B.drop k).length = B.length - k := List.length_drop k B
  have : mVal B o s ≤ 3 * (B.length - k) + 2 := by
    simp only [mVal, rank]
    have : B.length - o ≤ B.length - k := by omega
    split <;> [omega; split <;> omega]
  simp only [loopFuel, hlen]
  omega

theorem stEquiv_trans {a b c : FState} (h1 : stEquiv a b) (h2 : stEquiv b c) :
    stEquiv a c := by
  obtain ⟨hs1, hn1, ba, bb, hba, hbb, hoa, hob, hd1⟩ := h1
  obtain ⟨hs2, hn2, bb2, bc, hbb2, hbc, hob2, hoc, hd2⟩ := h2
  rw [hbb] at hbb2
  cases hbb2
  exact ⟨hs1.trans hs2, hn1.trans hn2, ba, bc, hba, hbc, hoa, hoc, hd1.trans hd2⟩

/-- `_flush` cannot distinguish equivalent states. -/
theorem flush_respects {st st2 : FState} (h : stEquiv st st2) :
    flushCheck st = flushCheck st2 := by
  obtain ⟨hs, _, b, b2, hb, hb2, ho, ho2, hd⟩ := h
  have hiff : b.length = st.offset ↔ b2.length = st2.offset := by
    have e1 : b.drop st.offset = [] ↔ b.length ≤ st.offset := List.drop_eq_nil_iff
    have e2 : b2.drop st2.offset = [] ↔ b2.length ≤ st2.offset := List.drop_eq_nil_iff
    constructor
    · intro hh
      have h1 : b.drop st.offset = [] := e1.mpr (by omega)
      have h2 : b2.drop st2.offset = [] := by rw [← hd]; exact h1
      have := e2.mp h2
      omega
    · intro hh
      have h2 : b2.drop st2.offset = [] := e2.mpr (by omega)
      have h1 : b.drop st.offset = [] := by rw [hd]; exact h2
      have := e1.mp h1
      omega
  by_cases hc : b.length = st.offset ∧ st.status = 0
  · have hc2 : b2.length = st2.offset ∧ st2.status = 0 := ⟨hiff.mp hc.1, by rw [← hs]; exact hc.2⟩
    simp [flushCheck, hb, hb2, hc, hc2]
  · have hc2 : ¬(b2.length = st2.offset ∧ st2.status = 0) := by
      intro hc2
      exact hc ⟨hiff.mpr hc2.1, by rw [hs]; exact hc2.2⟩
    simp [flushCheck, hb, hb2, hc, hc2]

theorem drop_append_of_le (B C : Bytes) (k : Nat) (h : k ≤ B.length) :
    (B ++ C).drop k = B.drop k ++ C := by
  rw [List.drop_append_eq_append_drop]
  have h0 : k - B.length = 0 := by omega
  rw [h0, List.drop_zero]

theorem transform_some (env : MachineEnv ω) (D : Bytes) (o s nd : Nat) (chunk : Bytes) :
    transform env ⟨some D, o, s, nd⟩ chunk =
      match runFull env (D.drop o ++ chunk) 0 s nd with
      | .next outs o1 s1 nd1 => (outs, .ok ⟨some (D.drop o ++ chunk), o1, s1, nd1⟩)
      | .fail outs e => (outs, .error e)
      | .out outs _ _ _ => (outs, .error "loop fuel exhausted") := rfl

theorem feedChunks_nil (env : MachineEnv ω) (st : FState) :
    feedChunks env st [] = ([], .ok st) := rfl

theorem feedChunks_cons (env : MachineEnv ω) (st : FState) (c : Bytes) (cs : List Bytes) :
    feedChunks env st (c :: cs) =
      match transform env st c with
      | (outs, .error e) => (outs, .error e)
      | (outs, .ok st1) => (outs ++ (feedChunks env st1 cs).1, (feedChunks env st1 cs).2) := rfl

/-- The central induction: from any reachable stopped state, feeding the
chunks one at a time is equivalent to feeding their concatenation at once. -/
theorem feed_equiv {env : MachineEnv ω} :
    ∀ (cs : List Bytes) (D : Bytes) (o s nd : Nat), Inv D o s nd →
      nd ≠ 0 → D.length - o < nd →
      resEquiv (feedChunks env ⟨some D, o, s, nd⟩ cs)
               (feedChunks env ⟨some D, o, s, nd⟩ [cs.flatten]) := by
  intro cs
  induction cs with
  | nil =>
    intro D o s nd hInv hnd hlt
    rw [List.flatten_nil, feedChunks_nil, feedChunks_cons, transform_some]
    have hstop : runFull env (D.drop o ++ ([] : Bytes)) 0 s nd = .next [] 0 s nd := by
      apply runFull_next_of_stopped
      refine ⟨hnd, ?_⟩
      rw [List.append_nil, List.length_drop]
      omega
    rw [hstop]
    dsimp only
    rw [feedChunks_nil]
    refine ⟨by simp, rfl, rfl, D, D.drop o ++ [], rfl, rfl, hInv.1, by simp, ?_⟩
    simp
  | cons c cs ih =>
    intro D o s nd hInv hnd hlt
    have hInvB1 : Inv (D.drop o ++ c) 0 s nd := ⟨Nat.zero_le _, hInv.2.1, hInv.2.2⟩
    rw [List.flatten_cons, feedChunks_cons, feedChunks_cons, transform_some, transform_some]
    have hassoc : D.drop o ++ (c ++ cs.flatten) = (D.drop o ++ c) ++ cs.flatten :=
      (List.append_assoc _ _ _).symm
    rw [hassoc]
    cases hr : runFull env (D.drop o ++ c) 0 s nd with
    | out outs o1 s1 nd1 =>
      have hno := @runFull_not_out _ env _ _ _ _ hInvB1
      rw [hr] at hno
      simp [isOut] at hno
    | fail outs e =>
      have hext := (runLoop_ext cs.flatten (loopFuel (D.drop o ++ c)) 0 s nd hInvB1).2 outs e hr
      rw [hext]
      exact ⟨rfl, rfl⟩
    | next outs o1 s1 nd1 =>
      have hext := (runLoop_ext cs.flatten (loopFuel (D.drop o ++ c)) 0 s nd hInvB1).1
        outs o1 s1 nd1 hr
      rw [hext]
      obtain ⟨hInv1, _, hnd1, hlt1⟩ :=
        runLoop_next_inv (loopFuel (D.drop o ++ c)) 0 s nd outs o1 s1 nd1 hInvB1 hr
      have hIH := ih (D.drop o ++ c) o1 s1 nd1 hInv1 hnd1 hlt1
      rw [feedChunks_cons, transform_some] at hIH
      have hInvApp : Inv ((D.drop o ++ c) ++ cs.flatten) o1 s1 nd1 := by
        obtain ⟨h1, h2, h3⟩ := hInv1
        refine ⟨?_, h2, h3⟩
        rw [List.length_append]
        omega
      have hshift : runFull env ((D.drop o ++ c).drop o1 ++ cs.flatten) 0 s1 nd1 =
          shiftRes o1 (runFull env ((D.drop o ++ c) ++ cs.flatten) o1 s1 nd1) := by
        have hsh := @runFull_shift _ env _ _ _ _ _ hInvApp (Nat.le_refl o1)
        rw [Nat.sub_self, drop_append_of_le _ _ _ hInv1.1] at hsh
        exact hsh
      rw [hshift] at hIH
      cases hr2 : runFull env ((D.drop o ++ c) ++ cs.flatten) o1 s1 nd1 with
      | out outs2 o2 s2 nd2 =>
        have hno := @runFull_not_out _ env _ _ _ _ hInvApp
        rw [hr2] at hno
        simp [isOut] at hno
      | fail outs2 e =>
        rw [hr2] at hIH
        dsimp only [shiftRes] at hIH
        dsimp only [prependOuts]
        cases hL : feedChunks env ⟨some (D.drop o ++ c), o1, s1, nd1⟩ cs with
        | mk L1 L2 =>
          rw [hL] at hIH
          cases L2 with
          | ok stL => exact hIH.elim
          | error eL =>
            obtain ⟨houts, he⟩ := hIH
            subst he
            exact ⟨by rw [houts], rfl⟩
      | next outs2 o2 s2 nd2 =>
        rw [hr2] at hIH
        dsimp only [shiftRes] at hIH
        dsimp only [prependOuts]
        rw [feedChunks_nil] at hIH
        obtain ⟨hInv2, ho12, hnd2, hlt2⟩ :=
          runLoop_next_inv (loopFuel ((D.drop o ++ c) ++ cs.flatten)) o1 s1 nd1
            outs2 o2 s2 nd2 hInvApp hr2
        cases hL : feedChunks env ⟨some (D.drop o ++ c), o1, s1, nd1⟩ cs with
        | mk L1 L2 =>
          rw [hL] at hIH
          cases L2 with
          | error eL => exact hIH.elim
          | ok stL =>
            obtain ⟨houts, hstEq⟩ := hIH
            rw [feedChunks_nil]
            refine ⟨by simp [houts], ?_⟩
            refine stEquiv_trans hstEq ?_
            have hlen1 : ((D.drop o ++ c).drop o1 ++ cs.flatten).length =
                ((D.drop o ++ c).length - o1) + cs.flatten.length := by
              rw [List.length_append, List.length_drop]
            have hlen2 : ((D.drop o ++ c) ++ cs.flatten).length =
                (D.drop o ++ c).length + cs.flatten.length := List.length_append _ _
            refine ⟨rfl, rfl, _, _, rfl, rfl, ?_, ?_, ?_⟩
            · dsimp only
              rw [hlen1]
              have := hInv2.1
              rw [hlen2] at this
              omega
            · dsimp only
              exact hInv2.1
            · dsimp only
              rw [← drop_append_of_le _ _ _ hInv1.1, List.drop_drop]
              congr 1
              omega

/-- The first `_transform` call behaves the same whether the buffer starts as
`undefined` or as an empty adopted buffer. -/
theorem feed_init (env : MachineEnv ω) (c : Bytes) (cs : List Bytes) :
    feedChunks env initState (c :: cs) = feedChunks env ⟨some [], 0, 0, 4⟩ (c :: cs) := rfl

/-- C1: Chunk-boundary independence of the framing state machine.  For every
blob-decode environment: (1) feeding any non-empty partition of a byte
sequence chunk by chunk through `_transform` and then `_flush` produces
exactly the same pushed outputs and the same final outcome (error or clean
termination) as feeding the whole sequence as a single chunk; (2) when the
bytes available after appending a chunk are fewer than the currently required
count, `_transform` pushes nothing and makes no state transition (status and
needed count unchanged, input retained). -/
theorem c1_chunk_boundary_independence {ω : Type} (env : MachineEnv ω) :
    (∀ chunks : List Bytes, chunks ≠ [] →
      runAll env chunks = runAll env [chunks.flatten]) ∧
    (∀ (st : FState) (b : Bytes) (chunk : Bytes), st.buffer = some b → st.needed ≠ 0 →
      (b.drop st.offset ++ chunk).length < st.needed →
      transform env st chunk =
        ([], .ok ⟨some (b.drop st.offset ++ chunk), 0, st.status, st.needed⟩)) := by
  constructor
  · intro chunks hne
    cases chunks with
    | nil => exact absurd rfl hne
    | cons c cs =>
      unfold runAll
      rw [feed_init env c cs, feed_init env ((c :: cs).flatten) []]
      have hfe := @feed_equiv _ env (c :: cs) [] 0 0 4
        ⟨Nat.le_refl 0, by omega, fun _ => rfl⟩ (by omega) (by simp)
      cases hA : feedChunks env ⟨some [], 0, 0, 4⟩ (c :: cs) with
      | mk A1 A2 =>
        cases hB : feedChunks env ⟨some [], 0, 0, 4⟩ [(c :: cs).flatten] with
        | mk B1 B2 =>
          rw [hA, hB] at hfe
          cases A2 with
          | error e =>
            cases B2 with
            | error e2 =>
              obtain ⟨h1, h2⟩ := hfe
              rw [h1, h2]
            | ok stB => exact hfe.elim
          | ok stA =>
            cases B2 with
            | error e2 => exact hfe.elim
            | ok stB =>
              obtain ⟨h1, h2⟩ := hfe
              rw [h1]
              dsimp only
              rw [flush_respects h2]
  · intro st b chunk hb hnd hlt
    obtain ⟨buf, o, s, nd⟩ := st
    dsimp only at hb hnd hlt ⊢
    subst hb
    rw [transform_some]
    have hstop : runFull env (b.drop o ++ chunk) 0 s nd = .next [] 0 s nd := by
      apply runFull_next_of_stopped
      exact ⟨hnd, by omega⟩
    rw [hstop]

/-- Witness for C1 at a concrete split and a concrete starving chunk. -/
theorem c1_witness :
    (([[0], [0, 0, 0]] : List Bytes) ≠ [] ∧
      runAll envW [[0], [0, 0, 0]] = runAll envW [[[0], [0, 0, 0]].flatten]) ∧
    ((⟨some [7], 1, 0, 4⟩ : FState).buffer = some [7] ∧ ((4 : Nat) ≠ 0) ∧
      ((([7] : Bytes).drop 1 ++ [9]).length < 4) ∧
      transform envW ⟨some [7], 1, 0, 4⟩ [9] = ([], .ok ⟨some [9], 0, 0, 4⟩)) :=
  ⟨⟨by decide, (c1_chunk_boundary_independence envW).1 [[0], [0, 0, 0]] (by decide)⟩,
   ⟨rfl, by decide, by decide,
    (c1_chunk_boundary_independence envW).2 ⟨some [7], 1, 0, 4⟩ [7] [9] rfl
      (by decide) (by decide)⟩⟩

/-- C7: End-of-input termination.  For a machine whose buffer has been
initialised, `_flush` succeeds exactly when the cursor has consumed the whole
buffer and the machine is awaiting the next header length (status 0); in
every other situation — in particular truncation inside a frame — it raises
the format error instead of silently accepting a short stream. -/
theorem c7_flush_termination :
    ∀ (st : FState) (b : Bytes), st.buffer = some b →
      (flushCheck st = .ok () ↔ (st.offset = b.length ∧ st.status = 0)) := by
  intro st b hb
  obtain ⟨buf, o, s, nd⟩ := st
  dsimp only at hb ⊢
  subst hb
  by_cases hc : b.length = o ∧ s = 0
  · simp only [flushCheck, if_pos hc]
    constructor
    · intro _
      exact ⟨hc.1.symm, hc.2⟩
    · intro _
      trivial
  · simp only [flushCheck, if_neg hc]
    constructor
    · intro h
      cases h
    · intro h
      exact absurd ⟨h.1.symm, h.2⟩ hc

/-- Witness for C7: a cleanly terminated state passes `_flush`; a state
truncated while awaiting a 5-byte data blob (status 3) fails it. -/
theorem c7_witness :
    ((⟨some [5], 1, 0, 4⟩ : FState).buffer = some [5] ∧
      (flushCheck ⟨some [5], 1, 0, 4⟩ = .ok () ↔
        ((⟨some [5], 1, 0, 4⟩ : FState).offset = ([5] : Bytes).length ∧
          (⟨some [5], 1, 0, 4⟩ : FState).status = 0))) ∧
    ((⟨some [1, 2], 2, 3, 5⟩ : FState).buffer = some [1, 2] ∧
      ¬ flushCheck ⟨some [1, 2], 2, 3, 5⟩ = .ok ()) :=
  ⟨⟨rfl, c7_flush_termination ⟨some [5], 1, 0, 4⟩ [5] rfl⟩,
   ⟨rfl, fun h => by
      have := (c7_flush_termination ⟨some [1, 2], 2, 3, 5⟩ [1, 2] rfl).mp h
      exact absurd this.2 (by decide)⟩⟩

theorem tagsStep_eq (setting : Option KindSetting) (strings : List String)
    (keys vals : List Nat) :
    tagsStep setting strings keys vals =
      if settingTruthy setting = true ∧ keys.length ≠ vals.length
      then .error "input format error"
      else .ok (tagsField setting strings keys vals) := by
  simp only [tagsStep, tagsField]
  split_ifs <;> first | rfl | tauto

theorem parse_node_ok_iff (n : NodeWire) (data : BlockData) (node : NodeOut) :
    parse_node n data = .ok node ↔
      ((settingTruthy data.withTags.node = true → n.keys.length = n.vals.length) ∧
        node = { id := n.id
                 lat := data.lat_offset + (n.lat : ℚ) / data.granularity
                 lon := data.lon_offset + (n.lon : ℚ) / data.granularity
                 tags := tagsField data.withTags.node data.strings n.keys n.vals
                 info := infoField data n.info }) := by
  rw [parse_node, tagsStep_eq]
  by_cases hc : settingTruthy data.withTags.node = true ∧ n.keys.length ≠ n.vals.length
  · rw [if_pos hc]
    constructor
    · intro h
      cases h
    · rintro ⟨himp, _⟩
      exact absurd (himp hc.1) hc.2
  · rw [if_neg hc]
    constructor
    · intro h
      injection h with h
      exact ⟨fun ht => by tauto, h.symm⟩
    · rintro ⟨_, rfl⟩
      rfl

theorem parse_way_ok_iff (w : WayWire) (data : BlockData) (way : WayOut) :
    parse_way w data = .ok way ↔
      ((settingTruthy data.withTags.way = true → w.keys.length = w.vals.length) ∧
        way = { id := w.id
                refs := runningSums 0 w.refs
                tags := tagsField data.withTags.way data.strings w.keys w.vals
                info := infoField data w.info }) := by
  rw [parse_way, tagsStep_eq]
  by_cases hc : settingTruthy data.withTags.way = true ∧ w.keys.length ≠ w.vals.length
  · rw [if_pos hc]
    constructor
    · intro h
      cases h
    · rintro ⟨himp, _⟩
      exact absurd (himp hc.1) hc.2
  · rw [if_neg hc]
    constructor
    · intro h
      injection h with h
      exact ⟨fun ht => by tauto, h.symm⟩
    · rintro ⟨_, rfl⟩
      rfl

theorem parse_rel_ok_iff (r : RelWire) (data : BlockData) (rel : RelOut) :
    parse_rel r data = .ok rel ↔
      ((r.memids.length = r.types.length ∧ r.memids.length = r.roles_sid.length) ∧
        (settingTruthy data.withTags.relation = true → r.keys.length = r.vals.length) ∧
        rel = { id := r.id
                members := mkMembers data.strings 0 r.memids r.types r.roles_sid
                tags := tagsField data.withTags.relation data.strings r.keys r.vals
                info := infoField data r.info }) := by
  rw [parse_rel]
  by_cases hm : r.memids.length = r.types.length ∧ r.memids.length = r.roles_sid.length
  · rw [if_pos hm, tagsStep_eq]
    by_cases hc : settingTruthy data.withTags.relation = true ∧ r.keys.length ≠ r.vals.length
    · rw [if_pos hc]
      constructor
      · intro h
        cases h
      · rintro ⟨_, himp, _⟩
        exact absurd (himp hc.1) hc.2
    · rw [if_neg hc]
      constructor
      · intro h
        injection h with h
        exact ⟨hm, fun ht => by tauto, h.symm⟩
      · rintro ⟨_, _, rfl⟩
        rfl
  · rw [if_neg hm]
    constructor
    · intro h
      cases h
    · rintro ⟨hm2, _, _⟩
      exact absurd hm2 hm

/-- C4: Info reconstruction and omission.  Each emitted info field is present
exactly when its wire value is not the unset sentinel (`timestamp` is scaled
by `date_granularity`, `user` additionally requires a non-empty string-table
lookup, `visible` appears only for an explicit wire `false`); and an entity
decoded with info enabled and a wire info record present carries no info
field at all when no field qualifies. -/
theorem c4_info_reconstruction :
    (∀ (data : BlockData) (i : InfoWire),
      (∀ v, (fill_info data i).version = some v ↔ (i.version ≠ 0 ∧ v = i.version)) ∧
      (∀ t, (fill_info data i).timestamp = some t ↔
        (i.timestamp ≠ 0 ∧ t = i.timestamp * data.date_granularity)) ∧
      (∀ cs, (fill_info data i).changeset = some cs ↔ (i.changeset ≠ 0 ∧ cs = i.changeset)) ∧
      (∀ u, (fill_info data i).uid = some u ↔ (i.uid ≠ 0 ∧ u = i.uid)) ∧
      (∀ usr, (fill_info data i).user = some usr ↔
        (i.user_sid ≠ 0 ∧ strAtI data.strings i.user_sid ≠ "" ∧
          usr = strAtI data.strings i.user_sid)) ∧
      (∀ b, (fill_info data i).visible = some b ↔ (i.visible = some false ∧ b = false))) ∧
    (∀ (n : NodeWire) (data : BlockData) (node : NodeOut) (i : InfoWire),
      data.withInfo = true → n.info = some i → parse_node n data = .ok node →
      node.info = (if infoIsEmpty (fill_info data i) then none else some (fill_info data i))) ∧
    (∀ (w : WayWire) (data : BlockData) (way : WayOut) (i : InfoWire),
      data.withInfo = true → w.info = some i → parse_way w data = .ok way →
      way.info = (if infoIsEmpty (fill_info data i) then none else some (fill_info data i))) ∧
    (∀ (r : RelWire) (data : BlockData) (rel : RelOut) (i : InfoWire),
      data.withInfo = true → r.info = some i → parse_rel r data = .ok rel →
      rel.info = (if infoIsEmpty (fill_info data i) then none else some (fill_info data i))) := by
  refine ⟨?_, ?_, ?_, ?_⟩
  · intro data i
    refine ⟨?_, ?_, ?_, ?_, ?_, ?_⟩
    · intro v
      by_cases h : i.version = 0 <;> simp [fill_info, h, eq_comm]
    · intro t
      by_cases h : i.timestamp = 0 <;> simp [fill_info, h, eq_comm]
    · intro cs
      by_cases h : i.changeset = 0 <;> simp [fill_info, h, eq_comm]
    · intro u
      by_cases h : i.uid = 0 <;> simp [fill_info, h, eq_comm]
    · intro usr
      by_cases h1 : i.user_sid = 0
      · simp [fill_info, h1]
      · by_cases h2 : strAtI data.strings i.user_sid = "" <;>
          simp [fill_info, h1, h2, eq_comm]
    · intro b
      by_cases h : i.visible = some false <;> simp [fill_info, h, eq_comm]
  · intro n data node i hwi hni h
    obtain ⟨-, rfl⟩ := (parse_node_ok_iff n data node).mp h
    simp [infoField, hwi, hni]
  · intro w data way i hwi hwini h
    obtain ⟨-, rfl⟩ := (parse_way_ok_iff w data way).mp h
    simp [infoField, hwi, hwini]
  · intro r data rel i hwi hrini h
    obtain ⟨-, -, rfl⟩ := (parse_rel_ok_iff r data rel).mp h
    simp [infoField, hwi, hrini]

/-- Witness for C4 at a concrete node: version/timestamp/user qualify,
changeset/uid/visible do not, and the info record is attached. -/
theorem c4_witness :
    dataW4.withInfo = true ∧ nW4.info = some iwW4 ∧
    parse_node nW4 dataW4 = .ok nodeW4 ∧
    nodeW4.info =
      (if infoIsEmpty (fill_info dataW4 iwW4) then none else some (fill_info dataW4 iwW4)) :=
  ⟨rfl, rfl, rfl,
   c4_info_reconstruction.2.1 nW4 dataW4 nodeW4 iwW4 rfl rfl rfl⟩

theorem mkMembers_length (strings : List String) :
    ∀ (ms : List Int) (ts rs : List Nat) (ref : Int),
      ms.length = ts.length → ms.length = rs.length →
      (mkMembers strings ref ms ts rs).length = ms.length := by
  intro ms
  induction ms with
  | nil => intro ts rs ref _ _; rfl
  | cons m ms ih =>
    intro ts rs ref ht hr
    cases ts with
    | nil => simp at ht
    | cons t ts =>
      cases rs with
      | nil => simp at hr
      | cons r rs =>
        simp only [mkMembers, List.length_cons]
        rw [ih ts rs (ref + m) (by simpa using ht) (by simpa using hr)]

theorem mkMembers_getD (strings : List String) :
    ∀ (ms : List Int) (ts rs : List Nat) (ref : Int) (i : Nat),
      ms.length = ts.length → ms.length = rs.length → i < ms.length →
      (mkMembers strings ref ms ts rs).getD i ⟨none, 0, ""⟩ =
        ⟨memberTypes.get? (ts.getD i 0), (runningSums ref ms).getD i 0,
          strAt strings (rs.getD i 0)⟩ := by
  intro ms
  induction ms with
  | nil => intro ts rs ref i _ _ hi; simp at hi
  | cons m ms ih =>
    intro ts rs ref i ht hr hi
    cases ts with
    | nil => simp at ht
    | cons t ts =>
      cases rs with
      | nil => simp at hr
      | cons r rs =>
        cases i with
        | zero => simp [mkMembers, runningSums]
        | succ i =>
          simp only [mkMembers, runningSums, List.getD_cons_succ]
          exact ih ts rs (ref + m) i (by simpa using ht) (by simpa using hr)
            (by simpa using hi)

/-- C9: an out-of-range member type does not make relation decoding fail:
`memberTypes[t]` is an unchecked indexing whose out-of-range result is
`undefined`, so the member is emitted with no `type`, while members with
types 0, 1, 2 and all refs and roles are decoded normally. -/
theorem c9_unknown_member_type :
    ∀ (r : RelWire) (data : BlockData),
      r.memids.length = r.types.length → r.memids.length = r.roles_sid.length →
      (settingTruthy data.withTags.relation = true → r.keys.length = r.vals.length) →
      ∃ rel, parse_rel r data = .ok rel ∧
        rel.members.length = r.memids.length ∧
        (∀ i, i < r.memids.length →
          rel.members.getD i ⟨none, 0, ""⟩ =
            ⟨memberTypes.get? (r.types.getD i 0), (runningSums 0 r.memids).getD i 0,
              strAt data.strings (r.roles_sid.getD i 0)⟩) ∧
        (∀ i, i < r.memids.length → 3 ≤ r.types.getD i 0 →
          (rel.members.getD i ⟨none, 0, ""⟩).type = none) := by
  intro r data ht hr hk
  refine ⟨{ id := r.id
            members := mkMembers data.strings 0 r.memids r.types r.roles_sid
            tags := tagsField data.withTags.relation data.strings r.keys r.vals
            info := infoField data r.info }, ?_, ?_, ?_, ?_⟩
  · exact (parse_rel_ok_iff r data _).mpr ⟨⟨ht, hr⟩, hk, rfl⟩
  · exact mkMembers_length data.strings r.memids r.types r.roles_sid 0 ht hr
  · intro i hi
    exact mkMembers_getD data.strings r.memids r.types r.roles_sid 0 i ht hr hi
  · intro i hi h3
    rw [mkMembers_getD data.strings r.memids r.types r.roles_sid 0 i ht hr hi]
    dsimp only
    exact List.get?_eq_none.mpr (by simpa [memberTypes] using h3)

/-- Witness for C9 at a concrete relation with member types 0 and 5. -/
theorem c9_witness :
    rW9.memids.length = rW9.types.length ∧
    rW9.memids.length = rW9.roles_sid.length ∧
    (settingTruthy dataW9.withTags.relation = true → rW9.keys.length = rW9.vals.length) ∧
    (∃ rel, parse_rel rW9 dataW9 = .ok rel ∧
      rel.members.length = rW9.memids.length ∧
      (∀ i, i < rW9.memids.length →
        rel.members.getD i ⟨none, 0, ""⟩ =
          ⟨memberTypes.get? (rW9.types.getD i 0), (runningSums 0 rW9.memids).getD i 0,
            strAt dataW9.strings (rW9.roles_sid.getD i 0)⟩) ∧
      (∀ i, i < rW9.memids.length → 3 ≤ rW9.types.getD i 0 →
        (rel.members.getD i ⟨none, 0, ""⟩).type = none)) :=
  ⟨by decide, by decide, by decide,
   c9_unknown_member_type rW9 dataW9 (by decide) (by decide) (by decide)⟩

theorem resolveKind_eq_none (k : RawKind) : resolveKind k = none ↔ k = .other := by
  cases k <;> simp [resolveKind]

/-- Counterexample to C6: a `withTags` option that is neither a boolean nor
an object (e.g. a number) does NOT raise the configuration error — the code
initialises `result = {}` before the type tests, `{}` is truthy, and the
empty record is returned, leaving every kind entry `undefined` (falsy, hence
tag decoding disabled). -/
theorem c6_counterexample :
    with_tags RawOpt.otherPrim = .ok ⟨none, none, none⟩ ∧
    (with_tags RawOpt.otherPrim).isOk = true ∧
    settingTruthy (⟨none, none, none⟩ : ResolvedTags).node = false := by
  refine ⟨rfl, rfl, rfl⟩

/-- C6 amended: a boolean resolves every kind to that boolean (AllowAll /
Disabled); an object resolves each kind entry by `resolveKind` (missing →
`true`, boolean kept, non-empty array → key set, empty array → `false`); the
construction-time error is raised exactly when the option is an object with
some kind entry that is neither a boolean nor an array; any non-boolean,
non-object option value instead resolves to an empty record whose entries are
all absent and hence falsy (Disabled) downstream. -/
theorem c6_with_tags_resolution :
    (∀ b, with_tags (.flag b) = .ok ⟨some (.flag b), some (.flag b), some (.flag b)⟩) ∧
    (∀ n w r res, with_tags (.obj n w r) = .ok res →
      res.node = resolveKind n ∧ res.way = resolveKind w ∧ res.relation = resolveKind r) ∧
    (∀ l, l ≠ [] → resolveKind (.arr l) = some (.keyset l)) ∧
    (resolveKind (.arr []) = some (.flag false)) ∧
    (∀ n w r, (∃ e, with_tags (.obj n w r) = .error e) ↔
      (n = .other ∨ w = .other ∨ r = .other)) ∧
    (with_tags .nul = .ok ⟨none, none, none⟩) ∧
    (with_tags .otherPrim = .ok ⟨none, none, none⟩) ∧
    (settingTruthy none = false) := by
  refine ⟨fun b => rfl, ?_, ?_, rfl, ?_, rfl, rfl, rfl⟩
  · intro n w r res h
    cases hn : resolveKind n with
    | none => rw [with_tags, hn] at h; cases h
    | some n1 =>
      cases hw : resolveKind w with
      | none => rw [with_tags, hn, hw] at h; cases h
      | some w1 =>
        cases hr : resolveKind r with
        | none => rw [with_tags, hn, hw, hr] at h; cases h
        | some r1 =>
          rw [with_tags, hn, hw, hr] at h
          injection h with h
          subst h
          exact ⟨rfl, rfl, rfl⟩
  · intro l hl
    cases l with
    | nil => exact absurd rfl hl
    | cons x xs => simp [resolveKind]
  · intro n w r
    constructor
    · rintro ⟨e, he⟩
      by_contra hno
      push_neg at hno
      obtain ⟨hn, hw, hr⟩ := hno
      obtain ⟨n1, hn1⟩ := Option.ne_none_iff_exists'.mp
        (fun hc => hn ((resolveKind_eq_none n).mp hc))
      obtain ⟨w1, hw1⟩ := Option.ne_none_iff_exists'.mp
        (fun hc => hw ((resolveKind_eq_none w).mp hc))
      obtain ⟨r1, hr1⟩ := Option.ne_none_iff_exists'.mp
        (fun hc => hr ((resolveKind_eq_none r).mp hc))
      rw [with_tags, hn1, hw1, hr1] at he
      cases he
    · intro h
      refine ⟨"wrong withTags option.", ?_⟩
      rcases h with h | h | h
      · subst h
        rw [with_tags, (resolveKind_eq_none _).mpr rfl]
      · subst h
        cases hn : resolveKind n with
        | none => rw [with_tags, hn]
        | some n1 => rw [with_tags, hn, (resolveKind_eq_none _).mpr rfl]
      · subst h
        cases hn : resolveKind n with
        | none => rw [with_tags, hn]
        | some n1 =>
          cases hw : resolveKind w with
          | none => rw [with_tags, hn, hw]
          | some w1 => rw [with_tags, hn, hw, (resolveKind_eq_none _).mpr rfl]

/-- Witness for C6 amended at concrete options: an object with a key list, a
missing entry and a boolean; a nonempty allowed-key list; and an object whose
way entry has a bad shape. -/
theorem c6_witness :
    (with_tags (.obj (.arr ["a"]) .missing (.flag false)) =
        .ok ⟨some (.keyset ["a"]), some (.flag true), some (.flag false)⟩ ∧
      (⟨some (.keyset ["a"]), some (.flag true), some (.flag false)⟩ : ResolvedTags).node =
          resolveKind (.arr ["a"]) ∧
        (⟨some (.keyset ["a"]), some (.flag true), some (.flag false)⟩ : ResolvedTags).way =
          resolveKind .missing ∧
        (⟨some (.keyset ["a"]), some (.flag true), some (.flag false)⟩ : ResolvedTags).relation =
          resolveKind (.flag false)) ∧
    ((["a"] : List String) ≠ [] ∧ resolveKind (.arr ["a"]) = some (.keyset ["a"])) ∧
    (∃ e, with_tags (.obj (.flag true) .other .missing) = .error e) :=
  ⟨⟨by decide,
    c6_with_tags_resolution.2.1 (.arr ["a"]) .missing (.flag false)
      ⟨some (.keyset ["a"]), some (.flag true), some (.flag false)⟩ (by decide)⟩,
   ⟨by decide, c6_with_tags_resolution.2.2.1 ["a"] (by decide)⟩,
   (c6_with_tags_resolution.2.2.2.2.1 (.flag true) .other .missing).mpr
     (Or.inr (Or.inl rfl))⟩

/-- Counterexample to C5: a Blob carrying only `raw`, arriving as an OSMData
frame (status 3), is rejected with the `inflating raw not implemented` error
instead of passing its bytes through: status 3 asserts `blob.zlib_data`. -/
theorem c5_counterexample :
    dataBlobPayload inflId { raw := some [1, 2, 3], data := some "raw" } =
      .error "inflating raw not implemented" ∧
    dataBlobPayload inflId { raw := some [1, 2, 3], data := some "raw" } ≠
      .ok [1, 2, 3] :=
  ⟨rfl, by decide⟩

/-- C5 amended: for file-header blobs `raw` passes through unchanged and
`zlib_data` is inflated; for data blobs only `zlib_data` is accepted — any
blob without it (including a raw-only blob and each of the four other
declared codecs) is a fatal error naming the populated field via
`blob.data`, with no silent fallback; and a failing data-blob decode makes
the framing loop fail with no output pushed for that block. -/
theorem c5_blob_payload_handling :
    (∀ (inflate : Bytes → Except String Bytes) (b : BlobR) (r : Bytes),
      b.zlib_data = none → b.raw = some r →
      headerBlobPayload inflate b = .ok r) ∧
    (∀ (inflate : Bytes → Except String Bytes) (b : BlobR) (z : Bytes),
      b.zlib_data = some z →
      headerBlobPayload inflate b = inflate z ∧ dataBlobPayload inflate b = inflate z) ∧
    (∀ (inflate : Bytes → Except String Bytes) (b : BlobR) (f : String),
      b.zlib_data = none → b.raw = none → b.data = some f →
      headerBlobPayload inflate b = .error ("inflating " ++ f ++ " not implemented") ∧
      dataBlobPayload inflate b = .error ("inflating " ++ f ++ " not implemented")) ∧
    (∀ (inflate : Bytes → Except String Bytes) (b : BlobR),
      b.zlib_data = none →
      dataBlobPayload inflate b =
        .error ("inflating " ++ blobDataName b ++ " not implemented")) ∧
    (∀ (ω : Type) (env : MachineEnv ω) (B : Bytes) (o nd : Nat) (e : String),
      env.decodeDataBlob (slice B o nd) = .error e → ¬(nd ≠ 0 ∧ B.length - o < nd) →
      runFull env B o 3 nd = .fail [] e) := by
  refine ⟨?_, ?_, ?_, ?_, ?_⟩
  · intro inflate b r hz hr
    rw [headerBlobPayload, hz, hr]
  · intro inflate b z hz
    constructor
    · rw [headerBlobPayload, hz]
    · rw [dataBlobPayload, hz]
  · intro inflate b f hz hr hd
    constructor
    · rw [headerBlobPayload, hz, hr, blobDataName, hd]
      rfl
    · rw [dataBlobPayload, hz, blobDataName, hd]
      rfl
  · intro inflate b hz
    rw [dataBlobPayload, hz]
  · intro ω env B o nd e hdec hg
    apply runFull_fail_of_step
    rw [step, if_neg hg, if_neg (by decide : ¬(3 : Nat) = 0),
      if_neg (by decide : ¬(3 : Nat) = 1), if_neg (by decide : ¬(3 : Nat) = 2),
      if_pos (rfl : (3 : Nat) = 3), hdec]

/-- Witness for C5 amended at concrete blobs: raw header passthrough, zlib
selection, an lzma-only blob failing on both paths with the field named, a
raw-only data blob failing, and a failing data blob pushing nothing. -/
theorem c5_witness :
    (headerBlobPayload inflId { raw := some [9], data := some "raw" } = .ok [9]) ∧
    (headerBlobPayload inflId { zlib_data := some [4], data := some "zlib_data" } =
        inflId [4] ∧
      dataBlobPayload inflId { zlib_data := some [4], data := some "zlib_data" } =
        inflId [4]) ∧
    (headerBlobPayload inflId { lzma_data := some [1], data := some "lzma_data" } =
        .error ("inflating " ++ "lzma_data" ++ " not implemented") ∧
      dataBlobPayload inflId { lzma_data := some [1], data := some "lzma_data" } =
        .error ("inflating " ++ "lzma_data" ++ " not implemented")) ∧
    (dataBlobPayload inflId { raw := some [9], data := some "raw" } =
      .error ("inflating " ++
        blobDataName { raw := some [9], data := some "raw" } ++ " not implemented")) ∧
    (runFull envW5 [0] 0 3 1 = .fail [] "inflating lzma_data not implemented") :=
  ⟨c5_blob_payload_handling.1 inflId { raw := some [9], data := some "raw" } [9] rfl rfl,
   c5_blob_payload_handling.2.1 inflId
     { zlib_data := some [4], data := some "zlib_data" } [4] rfl,
   c5_blob_payload_handling.2.2.1 inflId
     { lzma_data := some [1], data := some "lzma_data" } "lzma_data" rfl rfl rfl,
   c5_blob_payload_handling.2.2.2.1 inflId { raw := some [9], data := some "raw" } rfl,
   c5_blob_payload_handling.2.2.2.2 Nat envW5 [0] 0 1
     "inflating lzma_data not implemented" rfl (by decide)⟩

theorem denseLoop_nil (data : BlockData) (dense : DenseWire) (lats lons : List Int)
    (i : Nat) (acc : DenseAcc) (kv : List Int) :
    denseLoop data dense [] lats lons i acc kv = .ok [] := rfl

theorem denseLoop_cons (data : BlockData) (dense : DenseWire) (d : Int) (ids : List Int)
    (dla : Int) (lats : List Int) (dlo : Int) (lons : List Int) (i : Nat)
    (acc : DenseAcc) (kv : List Int) :
    denseLoop data dense (d :: ids) (dla :: lats) (dlo :: lons) i acc kv =
      match denseTagsStep data dense kv with
      | .error e => .error e
      | .ok (tags, kv1) =>
        match denseInfoStep data dense i acc with
        | .error e => .error e
        | .ok (info, ts, cs, u, us) =>
          match denseLoop data dense ids lats lons (i + 1)
              ⟨acc.id + d, acc.lat + dla, acc.lon + dlo, ts, cs, u, us⟩ kv1 with
          | .error e => .error e
          | .ok rest =>
            .ok ({ id := acc.id + d
                   lat := data.lat_offset + ((acc.lat + dla : Int) : ℚ) / data.granularity
                   lon := data.lon_offset + ((acc.lon + dlo : Int) : ℚ) / data.granularity
                   tags := tags
                   info := info } :: rest) := rfl

theorem parse_dense_eq (dense : DenseWire) (data : BlockData) :
    parse_dense dense data =
      if dense.id.length = dense.lat.length ∧ dense.id.length = dense.lon.length then
        denseLoop data dense dense.id dense.lat dense.lon 0 ⟨0, 0, 0, 0, 0, 0, 0⟩
          dense.keys_vals
      else .error "input format error" := rfl

/-- A successful dense loop emits one node per id, whose ids and scaled
coordinates are the running sums of the per-step deltas. -/
theorem denseLoop_ok_shape {data : BlockData} {dense : DenseWire} :
    ∀ (ids lats lons : List Int) (i : Nat) (acc : DenseAcc) (kv : List Int)
      (nodes : List NodeOut),
      ids.length = lats.length → ids.length = lons.length →
      denseLoop data dense ids lats lons i acc kv = .ok nodes →
      nodes.length = ids.length ∧
      nodes.map (fun nd => nd.id) = runningSums acc.id ids ∧
      nodes.map (fun nd => nd.lat) =
        (runningSums acc.lat lats).map
          (fun sm : Int => data.lat_offset + (sm : ℚ) / data.granularity) ∧
      nodes.map (fun nd => nd.lon) =
        (runningSums acc.lon lons).map
          (fun sm : Int => data.lon_offset + (sm : ℚ) / data.granularity) := by
  intro ids
  induction ids with
  | nil =>
    intro lats lons i acc kv nodes h1 h2 h
    rw [denseLoop_nil] at h
    injection h with h
    subst h
    have hlat : lats = [] := List.length_eq_zero.mp h1.symm
    have hlon : lons = [] := List.length_eq_zero.mp h2.symm
    subst hlat hlon
    simp [runningSums]
  | cons d ids ih =>
    intro lats lons i acc kv nodes h1 h2 h
    cases lats with
    | nil => simp at h1
    | cons dla lats =>
      cases lons with
      | nil => simp at h2
      | cons dlo lons =>
        rw [denseLoop_cons] at h
        cases htg : denseTagsStep data dense kv with
        | error e => rw [htg] at h; cases h
        | ok pr =>
          obtain ⟨tags, kv1⟩ := pr
          rw [htg] at h
          dsimp only at h
          cases hin : denseInfoStep data dense i acc with
          | error e => rw [hin] at h; cases h
          | ok q =>
            obtain ⟨info, ts, cs, u, us⟩ := q
            rw [hin] at h
            dsimp only at h
            cases hrec : denseLoop data dense ids lats lons (i + 1)
                ⟨acc.id + d, acc.lat + dla, acc.lon + dlo, ts, cs, u, us⟩ kv1 with
            | error e => rw [hrec] at h; cases h
            | ok rest =>
              rw [hrec] at h
              dsimp only at h
              injection h with h
              subst h
              obtain ⟨hlen, hid, hlat, hlon⟩ := ih lats lons (i + 1)
                ⟨acc.id + d, acc.lat + dla, acc.lon + dlo, ts, cs, u, us⟩ kv1 rest
                (by simpa using h1) (by simpa using h2) hrec
              refine ⟨by simp [hlen], ?_, ?_, ?_⟩
              · simp only [List.map_cons, runningSums]
                rw [hid]
              · simp only [List.map_cons, runningSums]
                rw [hlat]
              · simp only [List.map_cons, runningSums]
                rw [hlon]

/-- A successful dense iteration with info enabled and a dense-info record
present implies the five length checks passed (note: `visible` is absent
from the checked list). -/
theorem denseLoop_cons_ok_info {data : BlockData} {dense : DenseWire} {di : DenseInfoWire}
    {d : Int} {ids : List Int} {dla : Int} {lats : List Int} {dlo : Int} {lons : List Int}
    {i : Nat} {acc : DenseAcc} {kv : List Int} {nodes : List NodeOut}
    (hwi : data.withInfo = true) (hdi : dense.denseinfo = some di)
    (h : denseLoop data dense (d :: ids) (dla :: lats) (dlo :: lons) i acc kv = .ok nodes) :
    dense.id.length = di.timestamp.length ∧ dense.id.length = di.changeset.length ∧
    dense.id.length = di.uid.length ∧ dense.id.length = di.user_sid.length ∧
    dense.id.length = di.version.length := by
  by_contra hno
  rw [denseLoop_cons] at h
  cases htg : denseTagsStep data dense kv with
  | error e => rw [htg] at h; cases h
  | ok pr =>
    obtain ⟨tags, kv1⟩ := pr
    rw [htg] at h
    dsimp only at h
    have hin : denseInfoStep data dense i acc = .error "input format error" := by
      unfold denseInfoStep
      rw [hwi, hdi]
      dsimp only
      rw [if_neg hno]
    rw [hin] at h
    cases h

/-- With the tag gate closed, a dense-info length mismatch is a format error
on the first iteration. -/
theorem denseLoop_cons_info_err {data : BlockData} {dense : DenseWire} {di : DenseInfoWire}
    (d : Int) (ids : List Int) (dla : Int) (lats : List Int) (dlo : Int) (lons : List Int)
    (i : Nat) (acc : DenseAcc) (kv : List Int)
    (hwi : data.withInfo = true) (hdi : dense.denseinfo = some di)
    (hts : settingTruthy data.withTags.node = false)
    (hno : ¬(dense.id.length = di.timestamp.length ∧ dense.id.length = di.changeset.length ∧
      dense.id.length = di.uid.length ∧ dense.id.length = di.user_sid.length ∧
      dense.id.length = di.version.length)) :
    denseLoop data dense (d :: ids) (dla :: lats) (dlo :: lons) i acc kv =
      .error "input format error" := by
  rw [denseLoop_cons]
  have htg : denseTagsStep data dense kv = .ok (none, kv) := by
    rw [denseTagsStep, if_neg]
    rintro ⟨hc, -⟩
    rw [hts] at hc
    cases hc
  rw [htg]
  dsimp only
  have hin : denseInfoStep data dense i acc = .error "input format error" := by
    unfold denseInfoStep
    rw [hwi, hdi]
    dsimp only
    rw [if_neg hno]
  rw [hin]

/-- With tags disabled and info effectively off, the dense loop never fails,
whatever the dense-info array lengths are. -/
theorem denseLoop_ok_of_disabled {data : BlockData} {dense : DenseWire}
    (hts : settingTruthy data.withTags.node = false)
    (hni : data.withInfo = false ∨ dense.denseinfo = none) :
    ∀ (ids lats lons : List Int) (i : Nat) (acc : DenseAcc) (kv : List Int),
      ids.length = lats.length → ids.length = lons.length →
      ∃ nodes, denseLoop data dense ids lats lons i acc kv = .ok nodes := by
  intro ids
  induction ids with
  | nil => intro lats lons i acc kv _ _; exact ⟨[], denseLoop_nil _ _ _ _ _ _ _⟩
  | cons d ids ih =>
    intro lats lons i acc kv h1 h2
    cases lats with
    | nil => simp at h1
    | cons dla lats =>
      cases lons with
      | nil => simp at h2
      | cons dlo lons =>
        have htg : denseTagsStep data dense kv = .ok (none, kv) := by
          rw [denseTagsStep, if_neg]
          rintro ⟨hc, -⟩
          rw [hts] at hc
          cases hc
        have hin : denseInfoStep data dense i acc =
            .ok (none, acc.timestamp, acc.changeset, acc.uid, acc.user_sid) := by
          rcases hni with hwi | hdn
          · unfold denseInfoStep
            rw [hwi]
          · cases hb : data.withInfo with
            | false => unfold denseInfoStep; rw [hb]
            | true => unfold denseInfoStep; rw [hb, hdn]
        obtain ⟨rest, hrest⟩ := ih lats lons (i + 1)
          ⟨acc.id + d, acc.lat + dla, acc.lon + dlo,
            acc.timestamp, acc.changeset, acc.uid, acc.user_sid⟩ kv
          (by simpa using h1) (by simpa using h2)
        refine ⟨{ id := acc.id + d
                  lat := data.lat_offset + ((acc.lat + dla : Int) : ℚ) / data.granularity
                  lon := data.lon_offset + ((acc.lon + dlo : Int) : ℚ) / data.granularity
                  tags := none
                  info := none } :: rest, ?_⟩
        rw [denseLoop_cons, htg]
        dsimp only
        rw [hin]
        dsimp only
        rw [hrest]

/-- Counterexample to C8: a dense-info substructure whose `visible` array is
shorter than `id` decodes successfully — `visible` is missing from the
`assertArrays` call, `dinfo.visible[i]` is simply `undefined` — whereas the
claim says decoding fails with a FormatError unless the visible array too has
length equal to `id`'s. -/
theorem c8_counterexample :
    dEx8.denseinfo = some diEx8 ∧
    diEx8.visible.length ≠ dEx8.id.length ∧
    dataEx8.withInfo = true ∧
    parse_dense dEx8 dataEx8 = .ok [nodeEx8] :=
  ⟨rfl, by decide, rfl, rfl⟩

/-- C8 amended: the keys/vals length check for nodes, ways and relations runs
only under an enabled (non-Disabled) tag policy for that kind (with the
policy disabled, mismatched tag arrays decode fine); the relation
memids/types/roles_sid check is unconditional; the dense-info length check
runs only when info is enabled and a dense-info record is present and at
least one node exists, covers timestamp/changeset/uid/user_sid/version, and
does NOT cover `visible`. -/
theorem c8_parallel_array_requirements :
    (∀ (n : NodeWire) (data : BlockData), settingTruthy data.withTags.node = true →
      n.keys.length ≠ n.vals.length → parse_node n data = .error "input format error") ∧
    (∀ (n : NodeWire) (data : BlockData), settingTruthy data.withTags.node = false →
      ∃ node, parse_node n data = .ok node) ∧
    (∀ (w : WayWire) (data : BlockData), settingTruthy data.withTags.way = true →
      w.keys.length ≠ w.vals.length → parse_way w data = .error "input format error") ∧
    (∀ (w : WayWire) (data : BlockData), settingTruthy data.withTags.way = false →
      ∃ way, parse_way w data = .ok way) ∧
    (∀ (r : RelWire) (data : BlockData),
      r.memids.length ≠ r.types.length ∨ r.memids.length ≠ r.roles_sid.length →
      parse_rel r data = .error "input format error") ∧
    (∀ (r : RelWire) (data : BlockData), r.memids.length = r.types.length →
      r.memids.length = r.roles_sid.length →
      settingTruthy data.withTags.relation = true → r.keys.length ≠ r.vals.length →
      parse_rel r data = .error "input format error") ∧
    (∀ (dense : DenseWire) (data : BlockData) (di : DenseInfoWire) (nodes : List NodeOut),
      data.withInfo = true → dense.denseinfo = some di → dense.id ≠ [] →
      parse_dense dense data = .ok nodes →
      dense.id.length = di.timestamp.length ∧ dense.id.length = di.changeset.length ∧
      dense.id.length = di.uid.length ∧ dense.id.length = di.user_sid.length ∧
      dense.id.length = di.version.length) ∧
    (∀ (dense : DenseWire) (data : BlockData) (di : DenseInfoWire),
      data.withInfo = true → dense.denseinfo = some di →
      settingTruthy data.withTags.node = false → dense.id ≠ [] →
      dense.id.length = dense.lat.length → dense.id.length = dense.lon.length →
      ¬(dense.id.length = di.timestamp.length ∧ dense.id.length = di.changeset.length ∧
        dense.id.length = di.uid.length ∧ dense.id.length = di.user_sid.length ∧
        dense.id.length = di.version.length) →
      parse_dense dense data = .error "input format error") ∧
    (∀ (dense : DenseWire) (data : BlockData),
      settingTruthy data.withTags.node = false →
      (data.withInfo = false ∨ dense.denseinfo = none) →
      dense.id.length = dense.lat.length → dense.id.length = dense.lon.length →
      ∃ nodes, parse_dense dense data = .ok nodes) ∧
    (∃ (dense : DenseWire) (data : BlockData) (di : DenseInfoWire) (nodes : List NodeOut),
      data.withInfo = true ∧ dense.denseinfo = some di ∧
      di.visible.length ≠ dense.id.length ∧ parse_dense dense data = .ok nodes) := by
  refine ⟨?_, ?_, ?_, ?_, ?_, ?_, ?_, ?_, ?_, ?_⟩
  · intro n data ht hk
    unfold parse_node
    rw [tagsStep_eq, if_pos ⟨ht, hk⟩]
  · intro n data hts
    exact ⟨_, (parse_node_ok_iff n data _).mpr
      ⟨fun hc => (by rw [hts] at hc; cases hc), rfl⟩⟩
  · intro w data ht hk
    unfold parse_way
    rw [tagsStep_eq, if_pos ⟨ht, hk⟩]
  · intro w data hts
    exact ⟨_, (parse_way_ok_iff w data _).mpr
      ⟨fun hc => (by rw [hts] at hc; cases hc), rfl⟩⟩
  · intro r data hne
    unfold parse_rel
    rw [if_neg (by tauto)]
  · intro r data hm1 hm2 ht hk
    unfold parse_rel
    rw [if_pos ⟨hm1, hm2⟩, tagsStep_eq, if_pos ⟨ht, hk⟩]
  · intro dense data di nodes hwi hdi hne h
    rw [parse_dense_eq] at h
    by_cases hl : dense.id.length = dense.lat.length ∧ dense.id.length = dense.lon.length
    · rw [if_pos hl] at h
      obtain ⟨d, tl, hid⟩ := List.exists_cons_of_ne_nil hne
      have hlat : dense.lat ≠ [] := by
        intro hc
        rw [hc, hid] at hl
        simp at hl
      have hlon : dense.lon ≠ [] := by
        intro hc
        rw [hc, hid] at hl
        simp at hl
      obtain ⟨dla, tla, hlat2⟩ := List.exists_cons_of_ne_nil hlat
      obtain ⟨dlo, tlo, hlon2⟩ := List.exists_cons_of_ne_nil hlon
      rw [hid, hlat2, hlon2] at h
      exact denseLoop_cons_ok_info hwi hdi h
    · rw [if_neg hl] at h
      cases h
  · intro dense data di hwi hdi hts hne hl1 hl2 hno
    rw [parse_dense_eq, if_pos ⟨hl1, hl2⟩]
    obtain ⟨d, tl, hid⟩ := List.exists_cons_of_ne_nil hne
    have hlat : dense.lat ≠ [] := by
      intro hc
      rw [hc, hid] at hl1
      simp at hl1
    have hlon : dense.lon ≠ [] := by
      intro hc
      rw [hc, hid] at hl2
      simp at hl2
    obtain ⟨dla, tla, hlat2⟩ := List.exists_cons_of_ne_nil hlat
    obtain ⟨dlo, tlo, hlon2⟩ := List.exists_cons_of_ne_nil hlon
    rw [hid, hlat2, hlon2]
    exact denseLoop_cons_info_err d tl dla tla dlo tlo 0 _ _ hwi hdi hts hno
  · intro dense data hts hni hl1 hl2
    rw [parse_dense_eq, if_pos ⟨hl1, hl2⟩]
    exact denseLoop_ok_of_disabled hts hni dense.id dense.lat dense.lon 0 _ _ hl1 hl2
  · exact ⟨dEx8, dataEx8, diEx8, [nodeEx8], rfl, rfl, by decide, rfl⟩

/-- Witness for C8 amended: a node with keys [0], vals [] fails under an
enabled policy; a dense record with a short timestamp array fails when info
is enabled but decodes when info is disabled. -/
theorem c8_witness :
    (settingTruthy dataW8.withTags.node = true ∧ nW8.keys.length ≠ nW8.vals.length ∧
      parse_node nW8 dataW8 = .error "input format error") ∧
    (dataEx8.withInfo = true ∧ dW8.denseinfo = some ⟨[], [0], [0], [0], [1], []⟩ ∧
      settingTruthy dataEx8.withTags.node = false ∧
      parse_dense dW8 dataEx8 = .error "input format error") ∧
    (∃ nodes, parse_dense dW8 dataW8f = .ok nodes) :=
  ⟨⟨by decide, by decide,
    c8_parallel_array_requirements.1 nW8 dataW8 (by decide) (by decide)⟩,
   ⟨rfl, rfl, by decide,
    c8_parallel_array_requirements.2.2.2.2.2.2.2.1 dW8 dataEx8 ⟨[], [0], [0], [0], [1], []⟩
      rfl rfl (by decide) (by decide) (by decide) (by decide) (by decide)⟩,
   c8_parallel_array_requirements.2.2.2.2.2.2.2.2.1 dW8 dataW8f (by decide)
     (Or.inl rfl) (by decide) (by decide)⟩

theorem policyOf_disabled_iff (s : Option KindSetting) :
    policyOf s = .Disabled ↔ settingTruthy s = false := by
  rcases s with - | s
  · simp [policyOf, settingTruthy]
  · rcases s with b | l
    · cases b <;> simp [policyOf, settingTruthy]
    · simp [policyOf, settingTruthy]

theorem policyOf_allowAll_iff (s : Option KindSetting) :
    policyOf s = .AllowAll ↔ s = some (.flag true) := by
  rcases s with - | s
  · simp [policyOf]
  · rcases s with b | l
    · cases b <;> simp [policyOf]
    · simp [policyOf]

theorem policyOf_allowSet_iff (s : Option KindSetting) (S : List String) :
    policyOf s = .AllowSet S ↔ s = some (.keyset S) := by
  rcases s with - | s
  · simp [policyOf]
  · rcases s with b | l
    · cases b <;> simp [policyOf]
    · simp [policyOf]

theorem upsert_ne_nil (m : List (String × String)) (k v : String) :
    upsert m k v ≠ [] := by
  unfold upsert
  split
  · rename_i h
    intro hc
    rw [List.map_eq_nil_iff] at hc
    subst hc
    simp at h
  · simp

theorem mem_upsert {p : String × String} {m : List (String × String)} {k v : String}
    (h : p ∈ upsert m k v) : p ∈ m ∨ p = (k, v) := by
  unfold upsert at h
  split at h
  · obtain ⟨q, hq, hqe⟩ := List.mem_map.mp h
    by_cases hk : q.1 = k
    · rw [if_pos hk] at hqe
      right
      exact hqe.symm
    · rw [if_neg hk] at hqe
      left
      rw [← hqe]
      exact hq
  · rw [List.mem_append] at h
    rcases h with h | h
    · left; exact h
    · right; simpa using h

theorem keyMem_upsert_self (m : List (String × String)) (k v : String) :
    keyMem (upsert m k v) k = true := by
  unfold keyMem upsert
  split
  · rename_i h
    rw [List.any_eq_true] at h ⊢
    obtain ⟨q, hq, hqk⟩ := h
    refine ⟨(k, v), List.mem_map.mpr ⟨q, hq, ?_⟩, by simp⟩
    rw [if_pos (by simpa using hqk)]
  · rw [List.any_eq_true]
    exact ⟨(k, v), by simp, by simp⟩

theorem keyMem_upsert_of {m : List (String × String)} {k0 : String} (k v : String)
    (h : keyMem m k0 = true) : keyMem (upsert m k v) k0 = true := by
  unfold keyMem at h ⊢
  unfold upsert
  rw [List.any_eq_true] at h
  obtain ⟨q, hq, hqk⟩ := h
  split
  · rw [List.any_eq_true]
    by_cases hk : q.1 = k
    · refine ⟨(k, v), List.mem_map.mpr ⟨q, hq, by rw [if_pos hk]⟩, ?_⟩
      simp only [decide_eq_true_eq] at hqk ⊢
      rw [← hk]
      exact hqk
    · exact ⟨q, List.mem_map.mpr ⟨q, hq, by rw [if_neg hk]⟩, hqk⟩
  · rw [List.any_eq_true]
    exact ⟨q, List.mem_append.mpr (Or.inl hq), hqk⟩

theorem tagsLoop_ne_nil {setting : Option KindSetting} {strings : List String} :
    ∀ (ks vs : List Nat) (acc : List (String × String)),
      acc ≠ [] → tagsLoop setting strings ks vs acc ≠ [] := by
  intro ks
  induction ks with
  | nil => intro vs acc h; simpa [tagsLoop] using h
  | cons k ks ih =>
    intro vs acc h
    cases vs with
    | nil => simpa [tagsLoop] using h
    | cons v vs =>
      simp only [tagsLoop]
      by_cases ha : allowKey setting (strAt strings k) = true
      · rw [if_pos ha]
        exact ih vs _ (upsert_ne_nil _ _ _)
      · rw [if_neg ha]
        exact ih vs acc h

theorem tagsLoop_eq_nil_iff {setting : Option KindSetting} {strings : List String} :
    ∀ (ks vs : List Nat) (acc : List (String × String)), ks.length = vs.length →
      (tagsLoop setting strings ks vs acc = [] ↔
        (acc = [] ∧ ∀ kk ∈ ks, allowKey setting (strAt strings kk) = false)) := by
  intro ks
  induction ks with
  | nil => intro vs acc h; simp [tagsLoop]
  | cons k ks ih =>
    intro vs acc hlen
    cases vs with
    | nil => simp at hlen
    | cons v vs =>
      simp only [tagsLoop]
      by_cases ha : allowKey setting (strAt strings k) = true
      · rw [if_pos ha]
        constructor
        · intro h
          exact absurd h (tagsLoop_ne_nil ks vs _ (upsert_ne_nil _ _ _))
        · rintro ⟨-, hall⟩
          have hk := hall k (by simp)
          rw [ha] at hk
          cases hk
      · rw [if_neg ha]
        rw [ih vs acc (by simpa using hlen)]
        constructor
        · rintro ⟨h1, h2⟩
          refine ⟨h1, ?_⟩
          intro kk hkk
          rcases List.mem_cons.mp hkk with rfl | hkk
          · simpa using ha
          · exact h2 kk hkk
        · rintro ⟨h1, h2⟩
          exact ⟨h1, fun kk hkk => h2 kk (List.mem_cons_of_mem _ hkk)⟩

theorem tagsLoop_mem {setting : Option KindSetting} {strings : List String} :
    ∀ (ks vs : List Nat) (acc : List (String × String)) (p : String × String),
      ks.length = vs.length →
      p ∈ tagsLoop setting strings ks vs acc →
      p ∈ acc ∨ ∃ q ∈ ks.zip vs, allowKey setting (strAt strings q.1) = true ∧
        p = (strAt strings q.1, strAt strings q.2) := by
  intro ks
  induction ks with
  | nil =>
    intro vs acc p h hp
    left
    simpa [tagsLoop] using hp
  | cons k ks ih =>
    intro vs acc p hlen hp
    cases vs with
    | nil => simp at hlen
    | cons v vs =>
      simp only [tagsLoop] at hp
      by_cases ha : allowKey setting (strAt strings k) = true
      · rw [if_pos ha] at hp
        rcases ih vs _ p (by simpa using hlen) hp with hacc | ⟨q, hq, hqa, hqe⟩
        · rcases mem_upsert hacc with h | h
          · left; exact h
          · right
            exact ⟨(k, v), by simp, ha, by rw [h]⟩
        · right
          exact ⟨q, by simp [hq], hqa, hqe⟩
      · rw [if_neg ha] at hp
        rcases ih vs acc p (by simpa using hlen) hp with hacc | ⟨q, hq, hqa, hqe⟩
        · left; exact hacc
        · right
          exact ⟨q, by simp [hq], hqa, hqe⟩

theorem tagsLoop_keyMem {setting : Option KindSetting} {strings : List String} :
    ∀ (ks vs : List Nat) (acc : List (String × String)) (k0 : String),
      ks.length = vs.length →
      (keyMem acc k0 = true ∨
        ∃ kk ∈ ks, allowKey setting (strAt strings kk) = true ∧ strAt strings kk = k0) →
      keyMem (tagsLoop setting strings ks vs acc) k0 = true := by
  intro ks
  induction ks with
  | nil =>
    intro vs acc k0 hlen h
    rcases h with h | ⟨kk, hkk, -⟩
    · simpa [tagsLoop] using h
    · simp at hkk
  | cons k ks ih =>
    intro vs acc k0 hlen h
    cases vs with
    | nil => simp at hlen
    | cons v vs =>
      simp only [tagsLoop]
      by_cases ha : allowKey setting (strAt strings k) = true
      · rw [if_pos ha]
        apply ih vs _ k0 (by simpa using hlen)
        rcases h with h | ⟨kk, hkk, hka, hke⟩
        · left
          exact keyMem_upsert_of _ _ h
        · rcases List.mem_cons.mp hkk with rfl | hkk
          · left
            rw [← hke]
            exact keyMem_upsert_self _ _ _
          · right
            exact ⟨kk, hkk, hka, hke⟩
      · rw [if_neg ha]
        apply ih vs acc k0 (by simpa using hlen)
        rcases h with h | ⟨kk, hkk, hka, hke⟩
        · left; exact h
        · rcases List.mem_cons.mp hkk with rfl | hkk
          · exact absurd hka ha
          · right
            exact ⟨kk, hkk, hka, hke⟩

theorem tagsLoop_keyset_nil (strings : List String) :
    ∀ (ks vs : List Nat) (acc : List (String × String)),
      tagsLoop (some (.keyset [])) strings ks vs acc = acc := by
  intro ks
  induction ks with
  | nil => intro vs acc; rfl
  | cons k ks ih =>
    intro vs acc
    cases vs with
    | nil => rfl
    | cons v vs =>
      simp only [tagsLoop]
      rw [if_neg (by simp [allowKey])]
      exact ih vs acc

/-- C2: Tag filter laws.  For decoded nodes, ways and relations: the emitted
tags field is governed by the kind's resolved policy; under Disabled it is
never present; under AllowAll it is present iff the wire record has at least
one key/value pair; under AllowSet(S) it is present iff some wire key is in
S; every entry of an emitted tag map comes from a wire pair whose key passes
the filter and every passing wire key occurs in the map; AllowAll admits
every key, AllowSet(S) admits exactly S-membership, and AllowSet(∅) never
yields a tags field. -/
theorem c2_tag_filter_laws :
    (∀ (n : NodeWire) (data : BlockData) (node : NodeOut), parse_node n data = .ok node →
      node.tags = tagsField data.withTags.node data.strings n.keys n.vals) ∧
    (∀ (w : WayWire) (data : BlockData) (way : WayOut), parse_way w data = .ok way →
      way.tags = tagsField data.withTags.way data.strings w.keys w.vals) ∧
    (∀ (r : RelWire) (data : BlockData) (rel : RelOut), parse_rel r data = .ok rel →
      rel.tags = tagsField data.withTags.relation data.strings r.keys r.vals) ∧
    (∀ (setting : Option KindSetting) (strings : List String) (keys vals : List Nat),
      policyOf setting = .Disabled → tagsField setting strings keys vals = none) ∧
    (∀ (setting : Option KindSetting) (strings : List String) (keys vals : List Nat),
      policyOf setting = .AllowAll → keys.length = vals.length →
      ((tagsField setting strings keys vals).isSome ↔ keys ≠ [])) ∧
    (∀ (setting : Option KindSetting) (S strings : List String) (keys vals : List Nat),
      policyOf setting = .AllowSet S → keys.length = vals.length →
      ((tagsField setting strings keys vals).isSome ↔
        ∃ kk ∈ keys, S.contains (strAt strings kk) = true)) ∧
    (∀ (setting : Option KindSetting) (strings : List String) (keys vals : List Nat)
        (t : List (String × String)), keys.length = vals.length →
      tagsField setting strings keys vals = some t →
      (∀ p ∈ t, ∃ q ∈ keys.zip vals, allowKey setting (strAt strings q.1) = true ∧
        p = (strAt strings q.1, strAt strings q.2)) ∧
      (∀ kk ∈ keys, allowKey setting (strAt strings kk) = true →
        keyMem t (strAt strings kk) = true)) ∧
    (∀ (setting : Option KindSetting) (k : String), policyOf setting = .AllowAll →
      allowKey setting k = true) ∧
    (∀ (setting : Option KindSetting) (S : List String) (k : String),
      policyOf setting = .AllowSet S → allowKey setting k = S.contains k) ∧
    (∀ (strings : List String) (keys vals : List Nat),
      tagsField (some (.keyset [])) strings keys vals = none) := by
  refine ⟨?_, ?_, ?_, ?_, ?_, ?_, ?_, ?_, ?_, ?_⟩
  · intro n data node h
    obtain ⟨-, rfl⟩ := (parse_node_ok_iff n data node).mp h
    rfl
  · intro w data way h
    obtain ⟨-, rfl⟩ := (parse_way_ok_iff w data way).mp h
    rfl
  · intro r data rel h
    obtain ⟨-, -, rfl⟩ := (parse_rel_ok_iff r data rel).mp h
    rfl
  · intro setting strings keys vals hp
    have hts := (policyOf_disabled_iff setting).mp hp
    unfold tagsField
    rw [if_neg]
    intro hc
    rw [hts] at hc
    cases hc
  · intro setting strings keys vals hp hlen
    obtain rfl := (policyOf_allowAll_iff setting).mp hp
    unfold tagsField assemble_tags
    rw [if_pos (show settingTruthy (some (.flag true)) = true from rfl)]
    by_cases he : tagsLoop (some (.flag true)) strings keys vals [] = []
    · rw [if_pos (by rw [he]; rfl)]
      obtain ⟨-, hall⟩ := (tagsLoop_eq_nil_iff keys vals [] hlen).mp he
      cases keys with
      | nil => simp
      | cons k ks =>
        have := hall k (by simp)
        simp [allowKey] at this
    · rw [if_neg (by intro hc; exact he (List.isEmpty_iff.mp hc))]
      simp only [Option.isSome_some, true_iff]
      intro hc
      subst hc
      exact he rfl
  · intro setting S strings keys vals hp hlen
    obtain rfl := (policyOf_allowSet_iff setting S).mp hp
    unfold tagsField assemble_tags
    rw [if_pos (show settingTruthy (some (.keyset S)) = true from rfl)]
    by_cases he : tagsLoop (some (.keyset S)) strings keys vals [] = []
    · rw [if_pos (by rw [he]; rfl)]
      obtain ⟨-, hall⟩ := (tagsLoop_eq_nil_iff keys vals [] hlen).mp he
      constructor
      · intro hc
        cases hc
      · rintro ⟨kk, hkk, hc⟩
        have hfalse := hall kk hkk
        rw [show allowKey (some (.keyset S)) (strAt strings kk) =
          S.contains (strAt strings kk) from rfl] at hfalse
        rw [hfalse] at hc
        cases hc
    · rw [if_neg (by intro hc; exact he (List.isEmpty_iff.mp hc))]
      simp only [Option.isSome_some, true_iff]
      by_contra hno
      push_neg at hno
      apply he
      apply (tagsLoop_eq_nil_iff keys vals [] hlen).mpr
      refine ⟨rfl, ?_⟩
      intro kk hkk
      have := hno kk hkk
      rw [show allowKey (some (.keyset S)) (strAt strings kk) =
        S.contains (strAt strings kk) from rfl]
      cases hc : S.contains (strAt strings kk) with
      | false => rfl
      | true => exact absurd hc this
  · intro setting strings keys vals t hlen h
    unfold tagsField at h
    by_cases hc : settingTruthy setting = true
    · rw [if_pos hc] at h
      unfold assemble_tags at h
      by_cases he : (tagsLoop setting strings keys vals []).isEmpty = true
      · rw [if_pos he] at h
        cases h
      · rw [if_neg he] at h
        injection h with h
        constructor
        · intro p hp
          rw [← h] at hp
          rcases tagsLoop_mem keys vals [] p hlen hp with h0 | hex
          · simp at h0
          · exact hex
        · intro kk hkk hka
          rw [← h]
          exact tagsLoop_keyMem keys vals [] _ hlen (Or.inr ⟨kk, hkk, hka, rfl⟩)
    · rw [if_neg hc] at h
      cases h
  · intro setting k hp
    obtain rfl := (policyOf_allowAll_iff setting).mp hp
    rfl
  · intro setting S k hp
    obtain rfl := (policyOf_allowSet_iff setting S).mp hp
    rfl
  · intro strings keys vals
    unfold tagsField assemble_tags
    rw [if_pos (show settingTruthy (some (.keyset [])) = true from rfl),
      tagsLoop_keyset_nil]
    rfl

/-- Witness for C2 at concrete inputs: wiring on a decoded node, the Disabled
law, the AllowSet presence law, and the AllowSet(∅) law. -/
theorem c2_witness :
    (parse_node nW2 dataW2 = .ok nodeW2 ∧
      nodeW2.tags = tagsField dataW2.withTags.node dataW2.strings nW2.keys nW2.vals) ∧
    (policyOf (none : Option KindSetting) = .Disabled ∧
      tagsField none ["x"] [0] [0] = none) ∧
    (policyOf (some (.keyset ["hw"])) = .AllowSet ["hw"] ∧
      ([2, 1] : List Nat).length = ([0, 0] : List Nat).length ∧
      ((tagsField (some (.keyset ["hw"])) ["", "hw", "x"] [2, 1] [0, 0]).isSome ↔
        ∃ kk ∈ ([2, 1] : List Nat),
          (["hw"] : List String).contains (strAt ["", "hw", "x"] kk) = true)) ∧
    tagsField (some (.keyset [])) ["a"] [0] [0] = none :=
  ⟨⟨rfl, c2_tag_filter_laws.1 nW2 dataW2 nodeW2 rfl⟩,
   ⟨rfl, c2_tag_filter_laws.2.2.2.1 none ["x"] [0] [0] rfl⟩,
   ⟨rfl, rfl,
    c2_tag_filter_laws.2.2.2.2.2.1 (some (.keyset ["hw"])) ["hw"] ["", "hw", "x"]
      [2, 1] [0, 0] rfl rfl⟩,
   c2_tag_filter_laws.2.2.2.2.2.2.2.2.2 ["a"] [0] [0]⟩

/-- The sentinel loop consumes exactly one segment: on input
`pairsToKv seg ++ 0 :: rest` with no 0 key inside the segment, it inserts the
segment's pairs and leaves the cursor just past the sentinel. -/
theorem tagsSeg_spec {setting : Option KindSetting} {strings : List String} :
    ∀ (seg : List (Int × Int)) (rest : List Int) (acc : List (String × String)),
      (∀ q ∈ seg, q.1 ≠ 0) →
      tagsSeg setting strings (pairsToKv seg ++ 0 :: rest) acc =
        some (seg.foldl (insTag setting strings) acc, rest) := by
  intro seg
  induction seg with
  | nil =>
    intro rest acc _
    rw [show pairsToKv [] ++ 0 :: rest = 0 :: rest from rfl, tagsSeg.eq_def]
    simp
  | cons q seg ih =>
    intro rest acc hq
    have hq1 : q.1 ≠ 0 := hq q (by simp)
    have hstep : tagsSeg setting strings (pairsToKv (q :: seg) ++ 0 :: rest) acc =
        tagsSeg setting strings (pairsToKv seg ++ 0 :: rest)
          (insTag setting strings acc q) := by
      simp only [pairsToKv, List.cons_append, tagsSeg]
      rw [if_neg hq1]
      rfl
    rw [hstep, ih rest _ (fun p hp => hq p (by simp [hp]))]
    rfl

/-- With the tag gate open and `keys_vals` segmented by sentinels, the j-th
emitted node's tags are assembled from the j-th segment: the cursor is shared
across nodes and each segment ends at the first 0 key index. -/
theorem denseLoop_segments {data : BlockData} {dense : DenseWire}
    (hts : settingTruthy data.withTags.node = true)
    (hkv : dense.keys_vals.length > 0) :
    ∀ (segs : List (List (Int × Int))) (ids lats lons : List Int) (i : Nat)
      (acc : DenseAcc) (nodes : List NodeOut),
      segs.length = ids.length →
      (∀ seg ∈ segs, ∀ q ∈ seg, q.1 ≠ 0) →
      denseLoop data dense ids lats lons i acc (mkKV segs) = .ok nodes →
      ∀ j, j < nodes.length →
        (nodes.getD j ⟨0, 0, 0, none, none⟩).tags =
          (if (segTags data.withTags.node data.strings (segs.getD j [])).isEmpty
           then none
           else some (segTags data.withTags.node data.strings (segs.getD j []))) := by
  intro segs
  induction segs with
  | nil =>
    intro ids lats lons i acc nodes hlen hkeys h j hj
    have hid : ids = [] := List.length_eq_zero.mp hlen.symm
    subst hid
    rw [denseLoop_nil] at h
    injection h with h
    subst h
    simp at hj
  | cons seg segs ih =>
    intro ids lats lons i acc nodes hlen hkeys h j hj
    cases ids with
    | nil => simp at hlen
    | cons d ids2 =>
      cases lats with
      | nil =>
        rw [show denseLoop data dense (d :: ids2) [] lons i acc
            (mkKV (seg :: segs)) = .ok [] from rfl] at h
        injection h with h
        subst h
        simp at hj
      | cons dla lats2 =>
        cases lons with
        | nil =>
          rw [show denseLoop data dense (d :: ids2) (dla :: lats2) [] i acc
              (mkKV (seg :: segs)) = .ok [] from rfl] at h
          injection h with h
          subst h
          simp at hj
        | cons dlo lons2 =>
          rw [denseLoop_cons] at h
          have htg : denseTagsStep data dense (mkKV (seg :: segs)) =
              .ok ((if (segTags data.withTags.node data.strings seg).isEmpty then none
                    else some (segTags data.withTags.node data.strings seg)),
                   mkKV segs) := by
            unfold denseTagsStep
            rw [if_pos ⟨hts, hkv⟩,
              show mkKV (seg :: segs) = pairsToKv seg ++ 0 :: mkKV segs from rfl,
              tagsSeg_spec seg (mkKV segs) [] (hkeys seg (by simp))]
            rfl
          rw [htg] at h
          dsimp only at h
          cases hin : denseInfoStep data dense i acc with
          | error e => rw [hin] at h; cases h
          | ok q =>
            obtain ⟨info, ts, cs, u, us⟩ := q
            rw [hin] at h
            dsimp only at h
            cases hrec : denseLoop data dense ids2 lats2 lons2 (i + 1)
                ⟨acc.id + d, acc.lat + dla, acc.lon + dlo, ts, cs, u, us⟩ (mkKV segs) with
            | error e => rw [hrec] at h; cases h
            | ok rest =>
              rw [hrec] at h
              dsimp only at h
              injection h with h
              subst h
              cases j with
              | zero => rfl
              | succ j =>
                simp only [List.getD_cons_succ]
                exact ih ids2 lats2 lons2 (i + 1) _ rest (by simpa using hlen)
                  (fun s hs => hkeys s (by simp [hs])) hrec j (by simpa using hj)

/-- C3: Dense-node decoding.  A successful decode of a dense record with
parallel id/lat/lon arrays of length N emits exactly N nodes in order whose
ids and scaled coordinates are the prefix sums of the per-step deltas (seeded
at 0, coordinates as offset plus sum over the divisor); the key/value array
is consumed by one shared cursor, each node's segment ending at the first 0
key index; and the concrete record id=[1,1,1], lat=lon=[0,0,0] with no
denseinfo yields 3 nodes with ids [1,2,3] and lat/lon equal to the block
offsets. -/
theorem c3_dense_decoding :
    (∀ (dense : DenseWire) (data : BlockData) (nodes : List NodeOut),
      parse_dense dense data = .ok nodes →
      nodes.length = dense.id.length ∧
      nodes.map (fun nd => nd.id) = runningSums 0 dense.id ∧
      nodes.map (fun nd => nd.lat) =
        (runningSums 0 dense.lat).map
          (fun sm : Int => data.lat_offset + (sm : ℚ) / data.granularity) ∧
      nodes.map (fun nd => nd.lon) =
        (runningSums 0 dense.lon).map
          (fun sm : Int => data.lon_offset + (sm : ℚ) / data.granularity)) ∧
    (∀ (dense : DenseWire) (data : BlockData) (segs : List (List (Int × Int)))
        (nodes : List NodeOut),
      settingTruthy data.withTags.node = true →
      dense.keys_vals = mkKV segs → segs.length = dense.id.length →
      dense.keys_vals.length > 0 →
      (∀ seg ∈ segs, ∀ q ∈ seg, q.1 ≠ 0) →
      parse_dense dense data = .ok nodes →
      ∀ j, j < nodes.length →
        (nodes.getD j ⟨0, 0, 0, none, none⟩).tags =
          (if (segTags data.withTags.node data.strings (segs.getD j [])).isEmpty
           then none
           else some (segTags data.withTags.node data.strings (segs.getD j [])))) ∧
    (parse_dense ⟨[1, 1, 1], [0, 0, 0], [0, 0, 0], [], none⟩ dataC3 = .ok nodesC3 ∧
      nodesC3.map (fun nd => nd.id) = [1, 2, 3] ∧
      nodesC3.map (fun nd => nd.lat) =
        [dataC3.lat_offset, dataC3.lat_offset, dataC3.lat_offset] ∧
      nodesC3.map (fun nd => nd.lon) =
        [dataC3.lon_offset, dataC3.lon_offset, dataC3.lon_offset] ∧
      nodesC3.map (fun nd => nd.tags) = [none, none, none] ∧
      nodesC3.map (fun nd => nd.info) = [none, none, none]) := by
  refine ⟨?_, ?_, ?_, ?_, ?_, ?_, ?_, ?_⟩
  · intro dense data nodes h
    rw [parse_dense_eq] at h
    by_cases hl : dense.id.length = dense.lat.length ∧ dense.id.length = dense.lon.length
    · rw [if_pos hl] at h
      exact denseLoop_ok_shape dense.id dense.lat dense.lon 0 ⟨0, 0, 0, 0, 0, 0, 0⟩
        dense.keys_vals nodes hl.1 hl.2 h
    · rw [if_neg hl] at h
      cases h
  · intro dense data segs nodes hts hkveq hseglen hkvpos hkeys h
    rw [parse_dense_eq] at h
    by_cases hl : dense.id.length = dense.lat.length ∧ dense.id.length = dense.lon.length
    · rw [if_pos hl] at h
      rw [hkveq] at h
      exact denseLoop_segments hts hkvpos segs dense.id dense.lat dense.lon 0
        ⟨0, 0, 0, 0, 0, 0, 0⟩ nodes hseglen hkeys h
    · rw [if_neg hl] at h
      cases h
  · rfl
  · rfl
  · simp [nodesC3]
  · simp [nodesC3]
  · rfl
  · rfl

/-- Witness for C3: the shape clause applied to the concrete scenario record,
and the shared-cursor clause applied to a two-segment record where the first
node takes the pair (1,2) and the second node's segment is empty. -/
theorem c3_witness :
    (parse_dense ⟨[1, 1, 1], [0, 0, 0], [0, 0, 0], [], none⟩ dataC3 = .ok nodesC3 ∧
      nodesC3.length = ([1, 1, 1] : List Int).length ∧
      nodesC3.map (fun nd => nd.id) = runningSums 0 [1, 1, 1]) ∧
    (settingTruthy dataSegW3.withTags.node = true ∧
      dSegW3.keys_vals = mkKV [[(1, 2)], []] ∧
      ([[(1, 2)], []] : List (List (Int × Int))).length = dSegW3.id.length ∧
      dSegW3.keys_vals.length > 0 ∧
      parse_dense dSegW3 dataSegW3 = .ok nodesSegW3 ∧
      (nodesSegW3.getD 0 ⟨0, 0, 0, none, none⟩).tags =
        (if (segTags dataSegW3.withTags.node dataSegW3.strings
              (([[(1, 2)], []] : List (List (Int × Int))).getD 0 [])).isEmpty
         then none
         else some (segTags dataSegW3.withTags.node dataSegW3.strings
              (([[(1, 2)], []] : List (List (Int × Int))).getD 0 []))) ∧
      (nodesSegW3.getD 1 ⟨0, 0, 0, none, none⟩).tags =
        (if (segTags dataSegW3.withTags.node dataSegW3.strings
              (([[(1, 2)], []] : List (List (Int × Int))).getD 1 [])).isEmpty
         then none
         else some (segTags dataSegW3.withTags.node dataSegW3.strings
              (([[(1, 2)], []] : List (List (Int × Int))).getD 1 [])))) :=
  ⟨⟨rfl,
    (c3_dense_decoding.1 ⟨[1, 1, 1], [0, 0, 0], [0, 0, 0], [], none⟩ dataC3 nodesC3 rfl).1,
    (c3_dense_decoding.1 ⟨[1, 1, 1], [0, 0, 0], [0, 0, 0], [], none⟩ dataC3 nodesC3 rfl).2.1⟩,
   ⟨rfl, rfl, rfl, by decide, rfl,
    c3_dense_decoding.2.1 dSegW3 dataSegW3 [[(1, 2)], []] nodesSegW3 rfl rfl rfl
      (by decide) (by decide) rfl 0 (by decide),
    c3_dense_decoding.2.1 dSegW3 dataSegW3 [[(1, 2)], []] nodesSegW3 rfl rfl rfl
      (by decide) (by decide) rfl 1 (by decide)⟩⟩

/-- C10: a zero-byte input stream (end-of-input before any chunk was ever
delivered) is rejected by `_flush` even though the machine is still in its
initial status-0 state with a zero cursor: the buffer is still `undefined`
and `undefined == 0` is false in JS, so the assertion throws. -/
theorem c10_no_chunk_flush_error :
    (∀ (ω : Type) (env : MachineEnv ω),
      runAll env ([] : List Bytes) = ([], .error "input format error")) ∧
    flushCheck initState = .error "input format error" ∧
    initState.status = 0 ∧ initState.offset = 0 ∧ initState.buffer = none :=
  ⟨fun _ _ => rfl, rfl, rfl, rfl, rfl⟩

end OsmPbf
